import Mathlib

/-
Verification of the Graphite demo-artwork migration scripts
(demo-artwork/upgrade.py and wasm/build.py).

The embedding models the JSON documents the scripts manipulate with a
JSON-like value type for the parts the code only copies, and typed
structures for the node schema the code actually inspects.  The two
module-level Python generators (new_id, y_position) and the accumulating
new_nodes mapping become an explicit state record threaded through the
traversal.  Failure (KeyError, IndexError, failed assert) is modelled by
Option.  Python dicts become association lists whose insert overwrites in
place or appends, matching CPython insertion-order semantics.
-/

set_option maxHeartbeats 1000000

namespace Graphite

/-- JSON-like values.  Constructor jf10 encodes a decimal float in tenths
(the source only contains one-decimal floats such as 100.0, encoded as
jf10 1000). -/
inductive J where
  | null : J
  | jbool : Bool → J
  | jnum : Int → J
  | jf10 : Int → J
  | jstr : String → J
  | jarr : List J → J
  | jobj : List (String × J) → J

/-- Concrete type descriptor, the payload of a Concrete entry
(name/size/align), as in manual_composition fields of upgrade.py. -/
structure CType where
  name : String
  size : Nat
  align : Nat
deriving DecidableEq

/-- One entry of a node input list: either a Node reference object
(node_id/output_index/lambda) or any other input object (Value or Network
payloads), which upgrade.py only copies. -/
inductive NodeInput where
  | node : Nat → Nat → Bool → NodeInput
  | value : J → NodeInput

/-- Node implementation field: an Unresolved symbolic name or a nested
Network template (carried opaque as JSON, the code never inspects it). -/
inductive Impl where
  | unresolved : String → Impl
  | network : J → Impl

/-- Node record: the fields of a node dict in upgrade.py.  posX/posY are
metadata.position[0] and metadata.position[1]. -/
structure LNode where
  name : String
  inputs : List NodeInput
  manual_composition : Option CType
  has_primary_output : Bool
  implementation : Impl
  posX : Int
  posY : Int
  skip_deduplication : Bool
  world_state_hash : Nat
  path : J

/-- One entry of a legacy network outputs list. -/
structure NetworkOutput where
  node_id : Nat
  node_output_index : Nat
deriving DecidableEq

/-- Legacy layer network: integer-keyed node mapping plus declared
outputs, as read by the Layer branch of update_layer. -/
structure LNetwork where
  nodes : List (Nat × LNode)
  outputs : List NetworkOutput

/-- Legacy tree node, the data field of a layer: a Folder holding the
data fields of its ordered child layers, or a Layer holding a network. -/
inductive LayerData where
  | folder : List LayerData → LayerData
  | layer : LNetwork → LayerData

/-- Association-list lookup, modelling a Python dict read. -/
def alookup {κ α : Type} [DecidableEq κ] (k : κ) : List (κ × α) → Option α
  | [] => none
  | p :: m => if p.1 = k then some p.2 else alookup k m

/-- Association-list write, modelling a Python dict assignment: an
existing key is overwritten in place, a new key is appended. -/
def ainsert {κ α : Type} [DecidableEq κ] (k : κ) (v : α) (m : List (κ × α)) : List (κ × α) :=
  if (alookup k m).isSome then m.map (fun p => if p.1 = k then (k, v) else p) else m ++ [(k, v)]

/-- Key-presence predicate on an association list. -/
def hasKey {κ α : Type} [DecidableEq κ] (m : List (κ × α)) (k : κ) : Prop :=
  (alookup k m).isSome

instance {κ α : Type} [DecidableEq κ] (m : List (κ × α)) (k : κ) : Decidable (hasKey m k) := by
  unfold hasKey
  infer_instance

/-- Value stream of the gen_id generator of upgrade.py: the n-th value
yielded (the generator starts at 42 and increments by 1). -/
def gen_id : Nat → Nat
  | 0 => 42
  | n + 1 => gen_id n + 1

/-- Value stream of the gen_y generator of upgrade.py: the n-th value
yielded (the generator starts at 7 and increments by 3). -/
def gen_y : Nat → Nat
  | 0 => 7
  | n + 1 => gen_y n + 3

/-- Module-level mutable state of upgrade.py: the position of the new_id
generator (nextId is the value the next draw yields), the position of the
y_position generator (nextY is the value the next draw yields), and the
accumulating new_nodes mapping (keys written as str(int) in Python,
kept as the underlying integers here). -/
structure MState where
  nextId : Nat
  nextY : Nat
  new_nodes : List (Nat × LNode)

/-- Footprint concrete type used by the Transform and Cull fixups. -/
def footprint_type : CType :=
  { name := "graphene_core::transform::Footprint", size := 72, align := 8 }

/-- JSON Concrete object builder, for transcribing the templates. -/
def jConcrete (n : String) (s a : Int) : J :=
  J.jobj [("Concrete", J.jobj [("name", J.jstr n), ("size", J.jnum s), ("align", J.jnum a)])]

/-- JSON Node-reference input object with output_index 0 and lambda false. -/
def jNodeRef (i : Int) : J :=
  J.jobj [("Node", J.jobj [("node_id", J.jnum i), ("output_index", J.jnum 0), ("lambda", J.jbool false)])]

/-- JSON Unresolved implementation object. -/
def jUnresolved (n : String) : J :=
  J.jobj [("Unresolved", J.jobj [("name", J.jstr n)])]

/-- JSON node object builder for the inner template networks, with the
field order of the source dict literals. -/
def jTemplateNode (name : String) (inputs : List J) (mc : J) (impl : J) (skip : Bool) : J :=
  J.jobj [("name", J.jstr name),
          ("inputs", J.jarr inputs),
          ("manual_composition", mc),
          ("has_primary_output", J.jbool true),
          ("implementation", impl),
          ("metadata", J.jobj [("position", J.jarr [J.jnum 0, J.jnum 0])]),
          ("skip_deduplication", J.jbool skip),
          ("world_state_hash", J.jnum 0),
          ("path", J.null)]

/-- Inner sub-network template of the synthesized Layer wrapper node
(upgrade.py lines 138 to 327): a To Graphic Element passthrough, a
Monitor probe and a ConstructLayer composition node. -/
def layer_inner_network : J :=
  J.jobj [("inputs", J.jarr [J.jnum 0, J.jnum 2, J.jnum 2, J.jnum 2, J.jnum 2, J.jnum 2, J.jnum 2, J.jnum 2]),
          ("outputs", J.jarr [J.jobj [("node_id", J.jnum 2), ("node_output_index", J.jnum 0)]]),
          ("nodes", J.jobj
            [("1", jTemplateNode "Monitor" [jNodeRef 0]
                     (jConcrete "graphene_core::transform::Footprint" 72 8)
                     (jUnresolved "graphene_core::memo::MonitorNode<_, _, _>") true),
             ("2", jTemplateNode "ConstructLayer"
                     [jNodeRef 1,
                      J.jobj [("Network", jConcrete "alloc::string::String" 12 4)],
                      J.jobj [("Network", jConcrete "graphene_core::raster::adjustments::BlendMode" 4 4)],
                      J.jobj [("Network", jConcrete "f32" 4 4)],
                      J.jobj [("Network", jConcrete "bool" 1 1)],
                      J.jobj [("Network", jConcrete "bool" 1 1)],
                      J.jobj [("Network", jConcrete "bool" 1 1)],
                      J.jobj [("Network", J.jobj [("Fn", J.jarr
                        [jConcrete "graphene_core::transform::Footprint" 72 8,
                         jConcrete "graphene_core::graphic_element::GraphicGroup" 12 4])])]]
                     (jConcrete "graphene_core::transform::Footprint" 72 8)
                     (jUnresolved "graphene_core::ConstructLayerNode<_, _, _, _, _, _, _, _>") false),
             ("0", jTemplateNode "To Graphic Element"
                     [J.jobj [("Network", J.jobj [("Generic", J.jstr "T")])]]
                     J.null
                     (jUnresolved "graphene_core::ToGraphicElementData") false)]),
          ("disabled", J.jarr []),
          ("previous_outputs", J.null)]

/-- Empty GraphicGroup literal input, used by node_to_input when the
reference is absent. -/
def empty_group_input : NodeInput :=
  NodeInput.value (J.jobj [("Value", J.jobj [("tagged_value", J.jobj [("GraphicGroup", J.jarr [])]), ("exposed", J.jbool true)])])

/-- Literal Value input with exposed false, for the six middle wrapper
inputs. -/
def jLiteralInput (tag : String) (v : J) : NodeInput :=
  NodeInput.value (J.jobj [("Value", J.jobj [("tagged_value", J.jobj [(tag, v)]), ("exposed", J.jbool false)])])

/-- Transcription of the node_to_input lambda of upgrade.py line 79: a
Node reference when the id is truthy (None and 0 are falsy in Python),
otherwise the empty GraphicGroup literal. -/
def node_to_input : Option Nat → NodeInput
  | some nid => if nid = 0 then empty_group_input else NodeInput.node nid 0 false
  | none => empty_group_input

/-- Synthesized Layer wrapper node (upgrade.py lines 81 to 338), an
8-input composite embedding the fixed inner template; first input wired
to the computed output, last input wired to next_id, position
(-indent, y). -/
def layer_wrapper (output : Option Nat) (next_id : Option Nat) (indent : Int) (y : Int) : LNode :=
  { name := "Layer",
    inputs := [node_to_input output,
               jLiteralInput "String" (J.jstr ""),
               jLiteralInput "BlendMode" (J.jstr "Normal"),
               jLiteralInput "F32" (J.jf10 1000),
               jLiteralInput "Bool" (J.jbool true),
               jLiteralInput "Bool" (J.jbool false),
               jLiteralInput "Bool" (J.jbool false),
               node_to_input next_id],
    manual_composition := none,
    has_primary_output := true,
    implementation := Impl.network layer_inner_network,
    posX := -indent,
    posY := y,
    skip_deduplication := false,
    world_state_hash := 0,
    path := J.null }

/-- Renumber one node input (upgrade.py lines 46 to 48): a Node reference
is rewritten through new_ids (KeyError when absent), anything else is
left alone. -/
def renumber_input (new_ids : List (Nat × Nat)) : NodeInput → Option NodeInput
  | NodeInput.node r oi lb =>
    match alookup r new_ids with
    | some r2 => some (NodeInput.node r2 oi lb)
    | none => none
  | NodeInput.value v => some (NodeInput.value v)

/-- Renumber a whole input list, failing if any reference fails. -/
def renumber_inputs (new_ids : List (Nat × Nat)) : List NodeInput → Option (List NodeInput)
  | [] => some []
  | i :: rest =>
    match renumber_input new_ids i, renumber_inputs new_ids rest with
    | some i2, some r2 => some (i2 :: r2)
    | _, _ => none

/-- Existing-Cull check of upgrade.py line 56: scan the non-Output node
ids against the current (partially mutated) network mapping, stopping at
the first node named Cull, failing on a missing key. -/
def cull_check (netm : List (Nat × LNode)) : List Nat → Option Bool
  | [] => some false
  | x :: rest =>
    match alookup x netm with
    | some n => if n.name = "Cull" then some true else cull_check netm rest
    | none => none

/-- Transform fixup of upgrade.py lines 49 to 53: a node named Transform
gets its implementation and manual_composition overwritten, any other
node is untouched. -/
def transform_fixup (n : LNode) : LNode :=
  if n.name = "Transform"
  then { n with
           implementation := Impl.unresolved "graphene_core::transform::TransformNode<_, _, _, _, _, _>",
           manual_composition := some footprint_type }
  else n

/-- Snapshot deep-copied under the fresh id in the Shape branch
(upgrade.py lines 57 to 61): the node with its position moved to
(posX - (shift_left + 8 + indent), y). -/
def shape_duplicate (shift_left indent y : Int) (n : LNode) : LNode :=
  { n with posY := y, posX := n.posX - (shift_left + 8 + indent) }

/-- Mutation of the original Shape node into the Cull node
(upgrade.py lines 63 to 68), applied on top of the position shift of
lines 57 and 58: rename, rewire the single input to the fresh
duplicate, overwrite composition metadata and move posX back right. -/
def cull_rename (shift_left indent y : Int) (shape : Nat) (n : LNode) : LNode :=
  { shape_duplicate shift_left indent y n with
      name := "Cull",
      inputs := [NodeInput.node shape 0 false],
      manual_composition := some footprint_type,
      has_primary_output := true,
      implementation := Impl.unresolved "graphene_core::transform::CullNode<_>",
      posX := (shape_duplicate shift_left indent y n).posX + (shift_left + 8 + indent) }

/-- Shape branch of upgrade.py lines 55 to 68: when the node is named
Shape and the current network holds no node named Cull among the
non-Output ids, emit the duplicate under a fresh id and turn the node
into the Cull node; otherwise leave node and state alone. -/
def shape_cull_step (olds : List Nat) (netm : List (Nat × LNode)) (shift_left indent y : Int)
    (n : LNode) (s : MState) : Option (LNode × MState) :=
  if n.name = "Shape" then
    match cull_check netm olds with
    | none => none
    | some true => some (n, s)
    | some false =>
      some (cull_rename shift_left indent y s.nextId n,
            { s with
                nextId := s.nextId + 1,
                new_nodes := ainsert s.nextId (shape_duplicate shift_left indent y n) s.new_nodes })
  else some (n, s)

/-- Final position assignment of upgrade.py lines 70 and 71: Y becomes
the y drawn for this call, X is shifted left by shift_left + indent. -/
def finalize_node (shift_left indent y : Int) (n : LNode) : LNode :=
  { n with posY := y, posX := n.posX - (shift_left + indent) }

/-- Body of the per-node loop of upgrade.py lines 44 to 73 for one old
id: renumber the inputs in place, apply the Transform fixup, apply the
Shape-to-Cull duplication when no Cull sibling exists, give the node its
final position, write it back into the network mapping and emit it under
its renumbered id.  The accumulator carries the mutating network mapping
and the module state. -/
def process_network_node (olds : List Nat) (new_ids : List (Nat × Nat))
    (shift_left indent y : Int)
    (acc : List (Nat × LNode) × MState) (old : Nat) : Option (List (Nat × LNode) × MState) :=
  match alookup old acc.1 with
  | none => none
  | some node0 =>
    match renumber_inputs new_ids node0.inputs with
    | none => none
    | some inputs2 =>
      match shape_cull_step olds acc.1 shift_left indent y
              (transform_fixup { node0 with inputs := inputs2 }) acc.2 with
      | none => none
      | some (node3, s3) =>
        let node4 := finalize_node shift_left indent y node3
        match alookup old new_ids with
        | none => none
        | some nn =>
          some (ainsert old node4 acc.1,
                { s3 with new_nodes := ainsert nn node4 s3.new_nodes })

/-- Fold of process_network_node over the iteration order of the
non-Output id set; olds is the full set, the second list the remaining
iteration suffix. -/
def process_network (olds : List Nat) (new_ids : List (Nat × Nat))
    (shift_left indent y : Int) :
    List Nat → (List (Nat × LNode) × MState) → Option (List (Nat × LNode) × MState)
  | [], acc => some acc
  | old :: rest, acc =>
    match process_network_node olds new_ids shift_left indent y acc old with
    | none => none
    | some acc2 => process_network olds new_ids shift_left indent y rest acc2

/-- Iteration order used for the non-Output node-id set of upgrade.py
line 36 (CPython set order is unspecified but consistent within a run;
the embedding fixes the declared order of the mapping). -/
def network_olds (net : LNetwork) : List Nat :=
  (net.nodes.filter (fun p => p.2.name != "Output")).map Prod.fst

/-- Layer branch of update_layer (upgrade.py lines 33 to 74): draw one
fresh id per non-Output node, locate the declared output node, take its
X position as the horizontal shift, resolve the renumbered id of the
node feeding it, then run the per-node loop.  Returns the updated state
and the output reference. -/
def update_layer_network (net : LNetwork) (indent y : Int) (s : MState) : Option (MState × Nat) :=
  let olds := network_olds net
  let new_ids := olds.zip (List.range' s.nextId olds.length)
  let s1 := { s with nextId := s.nextId + olds.length }
  match net.outputs.head? with
  | none => none
  | some out0 =>
    match alookup out0.node_id net.nodes with
    | none => none
    | some output_node =>
      let shift_left := output_node.posX
      match output_node.inputs.head? with
      | none => none
      | some (NodeInput.value _) => none
      | some (NodeInput.node fid _ _) =>
        match alookup fid new_ids with
        | none => none
        | some output =>
          match process_network olds new_ids shift_left indent y olds (net.nodes, s1) with
          | none => none
          | some (_, s2) => some (s2, output)

/-- Transcription of the assert of upgrade.py line 77: the computed
output is None or an already emitted key. -/
def assert_output : Option Nat → List (Nat × LNode) → Bool
  | none, _ => true
  | some o, m => (alookup o m).isSome

/-- Child-loop body of the Folder branch (upgrade.py lines 27 to 31):
the children arrive already reversed, paired positionally with the
pre-reserved ids; each child is processed with its positional id as
layer_node_id and the next positional id (or none at the end) as
next_id.  The processing function is passed in, which keeps the
recursion structural in the fuel of update_layer. -/
def update_children_go (go : LayerData → Int → Nat → Option Nat → MState → Option MState) :
    List LayerData → List Nat → Int → MState → Option MState
  | [], _, _, s => some s
  | _ :: _, [], _, _ => none
  | l :: rest, lid :: restIds, indent, s =>
    match go l indent lid restIds.head? s with
    | none => none
    | some s2 => update_children_go go rest restIds indent s2

/-- Branch dispatch of update_layer (upgrade.py lines 24 to 74),
parameterized by the recursive call.  The Folder branch materializes
list(map(lambda x, _: x, new_id, layers)), which reserves one id per
child and burns one extra generator value on the terminating step of
map over the infinite generator, then recurses over the reversed child
list; its output is the first reserved id (IndexError on an empty
folder).  The Layer branch delegates to update_layer_network. -/
def update_core_go (go : LayerData → Int → Nat → Option Nat → MState → Option MState)
    (data : LayerData) (indent : Int) (y : Int) (s : MState) : Option (MState × Option Nat) :=
  match data with
  | LayerData.folder layers =>
    let c := s.nextId
    let ids := List.range' c layers.length
    let s1 := { s with nextId := c + layers.length + 1 }
    match update_children_go go layers.reverse ids (indent + 5) s1 with
    | none => none
    | some s2 =>
      match ids.head? with
      | none => none
      | some h => some (s2, some h)
  | LayerData.layer net =>
    match update_layer_network net indent y s with
    | none => none
    | some (s2, output) => some (s2, some output)

/-- Recursive tree flattener update_layer of upgrade.py lines 22 to 339:
draw a y position, run the branch body, check the assert, then emit the
synthesized Layer wrapper at layer_node_id.  Fuel bounds the recursion
depth; migrate passes the tree size, which dominates the depth. -/
def update_layer : Nat → LayerData → Int → Nat → Option Nat → MState → Option MState
  | 0, _, _, _, _, _ => none
  | fuel + 1, data, indent, layer_node_id, next_id, s =>
    let y : Int := Int.ofNat s.nextY
    let s0 := { s with nextY := s.nextY + 3 }
    match update_core_go (update_layer fuel) data indent y s0 with
    | none => none
    | some (s1, output) =>
      if assert_output output s1.new_nodes then
        some { s1 with new_nodes := ainsert layer_node_id (layer_wrapper output next_id indent y) s1.new_nodes }
      else none

mutual

/-- Size of a legacy tree, used as fuel (size dominates depth). -/
def layer_data_size : LayerData → Nat
  | LayerData.layer _ => 1
  | LayerData.folder ls => 1 + layer_list_size ls

/-- Size of a list of legacy trees. -/
def layer_list_size : List LayerData → Nat
  | [] => 0
  | l :: r => layer_data_size l + layer_list_size r

end

/-- Name of the externally supplied editor API type in the root template. -/
def editor_api_name : String :=
  "graphene_core::application_io::EditorApi<graphene_std::wasm_application_io::WasmApplicationIo>"

/-- Inner sub-network template of the synthesized root Output node
(upgrade.py lines 375 to 533): canvas creation, caching, render and
editor-API passthrough. -/
def output_inner_network : J :=
  J.jobj [("inputs", J.jarr [J.jnum 3, J.jnum 0]),
          ("outputs", J.jarr [J.jobj [("node_id", J.jnum 3), ("node_output_index", J.jnum 0)]]),
          ("nodes", J.jobj
            [("1", jTemplateNode "Create Canvas" [jNodeRef 0]
                     J.null
                     (jUnresolved "graphene_std::wasm_application_io::CreateSurfaceNode") true),
             ("3", jTemplateNode "RenderNode"
                     [jNodeRef 0,
                      J.jobj [("Network", J.jobj [("Fn", J.jarr
                        [jConcrete "graphene_core::transform::Footprint" 72 8,
                         J.jobj [("Generic", J.jstr "T")]])])],
                      jNodeRef 2]
                     J.null
                     (jUnresolved "graphene_std::wasm_application_io::RenderNode<_, _, _>") false),
             ("2", jTemplateNode "Cache" [jNodeRef 1]
                     (jConcrete "()" 0 1)
                     (jUnresolved "graphene_core::memo::MemoNode<_, _>") false),
             ("0", jTemplateNode "EditorApi"
                     [J.jobj [("Network", jConcrete editor_api_name 176 8)]]
                     J.null
                     (jUnresolved "graphene_core::ops::IdNode") false)]),
          ("disabled", J.jarr []),
          ("previous_outputs", J.null)]

/-- Synthesized root Output node written at key 0 by migrate
(upgrade.py lines 352 to 544): references node id 42, the top-level
wrapper of the traversal. -/
def output_root_node : LNode :=
  { name := "Output",
    inputs := [NodeInput.node 42 0 false,
               NodeInput.value (J.jobj [("Network", jConcrete editor_api_name 176 8)])],
    manual_composition := none,
    has_primary_output := true,
    implementation := Impl.network output_inner_network,
    posX := 8,
    posY := 4,
    skip_deduplication := false,
    world_state_hash := 0,
    path := J.null }

/-- Document-network node mapping produced by one migration run
(upgrade.py migrate, lines 341 to 352): reset the generators and the
accumulator, draw 42 as the root layer_node_id, flatten the tree, then
add the root Output node at key 0. -/
def migrate_nodes (data : LayerData) : Option (List (Nat × LNode)) :=
  let s0 : MState := { nextId := 42, nextY := 7, new_nodes := [] }
  let lid := s0.nextId
  let s1 := { s0 with nextId := s0.nextId + 1 }
  match update_layer (layer_data_size data) data 0 lid none s1 with
  | none => none
  | some s2 => some (ainsert 0 output_root_node s2.new_nodes)

/-- JSON encoding of a node input, inverse of the typed reading. -/
def input_to_j : NodeInput → J
  | NodeInput.node nid oi lb =>
    J.jobj [("Node", J.jobj [("node_id", J.jnum nid), ("output_index", J.jnum oi), ("lambda", J.jbool lb)])]
  | NodeInput.value v => v

/-- JSON encoding of an implementation field. -/
def impl_to_j : Impl → J
  | Impl.unresolved n => jUnresolved n
  | Impl.network net => J.jobj [("Network", net)]

/-- JSON encoding of a node record, with the field order the migrated
nodes carry in the output file. -/
def node_to_j (n : LNode) : J :=
  J.jobj [("name", J.jstr n.name),
          ("inputs", J.jarr (n.inputs.map input_to_j)),
          ("manual_composition",
            match n.manual_composition with
            | none => J.null
            | some c => jConcrete c.name c.size c.align),
          ("has_primary_output", J.jbool n.has_primary_output),
          ("implementation", impl_to_j n.implementation),
          ("metadata", J.jobj [("position", J.jarr [J.jnum n.posX, J.jnum n.posY])]),
          ("skip_deduplication", J.jbool n.skip_deduplication),
          ("world_state_hash", J.jnum n.world_state_hash),
          ("path", n.path)]

/-- JSON encoding of the node mapping (keys as decimal strings). -/
def nodes_to_j (m : List (Nat × LNode)) : J :=
  J.jobj (m.map (fun p => (toString p.1, node_to_j p.2)))

/-- Document envelope written by migrate (upgrade.py lines 546 to 618):
fixed legacy root metadata, the document network around the node
mapping, and fixed navigation and panel state. -/
def document_envelope (nodesJ : J) : J :=
  J.jobj [("document_legacy", J.jobj
            [("root", J.jobj
              [("visible", J.jbool true),
               ("name", J.null),
               ("data", J.jobj [("Folder", J.jobj
                 [("next_assignment_id", J.jnum 0),
                  ("layer_ids", J.jarr []),
                  ("layers", J.jarr [])])]),
               ("transform", J.jobj
                 [("matrix2", J.jarr [J.jf10 10, J.jf10 0, J.jf10 0, J.jf10 10]),
                  ("translation", J.jarr [J.jf10 0, J.jf10 0])]),
               ("preserve_aspect", J.jbool true),
               ("pivot", J.jarr [J.jf10 5, J.jf10 5]),
               ("blend_mode", J.jstr "Normal"),
               ("opacity", J.jf10 10)]),
             ("document_network", J.jobj
              [("inputs", J.jarr []),
               ("outputs", J.jarr [J.jobj [("node_id", J.jnum 0), ("node_output_index", J.jnum 0)]]),
               ("nodes", nodesJ),
               ("disabled", J.jarr []),
               ("previous_outputs", J.null)]),
             ("commit_hash", J.jstr "ef46080400bc6c4e069765dd2127306abbc9a94b")]),
          ("saved_document_identifier", J.jnum 0),
          ("auto_saved_document_identifier", J.jnum 0),
          ("name", J.jstr "Untitled Document 10"),
          ("version", J.jstr "0.0.18"),
          ("document_mode", J.jstr "DesignMode"),
          ("view_mode", J.jstr "Normal"),
          ("overlays_visible", J.jbool true),
          ("layer_metadata", J.jarr []),
          ("layer_range_selection_reference", J.null),
          ("navigation_handler", J.jobj
            [("pan", J.jarr [J.jf10 820, J.jf10 840]),
             ("tilt", J.jf10 0),
             ("zoom", J.jf10 10),
             ("transform_operation", J.jstr "None"),
             ("mouse_position", J.jarr [J.jf10 3890, J.jf10 5070]),
             ("finish_operation_with_click", J.jbool false)]),
          ("properties_panel_message_handler", J.jobj [("active_selection", J.null)])]

/-- Whole-process model of one migrate call: the incoming module state
(generators and accumulator left over from any previous run) is
discarded because migrate reassigns new_id, y_position and new_nodes
before doing anything; the run produces the serialized document (or
none when the process would abort) and the module state it leaves
behind. -/
def migrate_run (data : LayerData) (_g : MState) : Option J × MState :=
  let s0 : MState := { nextId := 42, nextY := 7, new_nodes := [] }
  let lid := s0.nextId
  let s1 := { s0 with nextId := s0.nextId + 1 }
  match update_layer (layer_data_size data) data 0 lid none s1 with
  | none => (none, s1)
  | some s2 =>
    let s3 := { s2 with new_nodes := ainsert 0 output_root_node s2.new_nodes }
    (some (document_envelope (nodes_to_j s3.new_nodes)), s3)

/-- Dependencies entry added by the build patcher (wasm/build.py). -/
def frontend_dependency : J :=
  J.jobj [("graphite-frontend", J.jstr "file:../../frontend")]

/-- Manifest patch of wasm/build.py patch_json: if the manifest already
has a dependencies key the file is left untouched, otherwise the one
graphite-frontend entry is added and the manifest rewritten. -/
def patch_json (manifest : List (String × J)) : List (String × J) :=
  if (alookup "dependencies" manifest).isSome then manifest
  else manifest ++ [("dependencies", frontend_dependency)]

/-- Simple legacy generator node used in the concrete test networks. -/
def rect_node (x : Int) : LNode :=
  { name := "Rectangle",
    inputs := [NodeInput.value (J.jobj [("Value", J.null)])],
    manual_composition := none,
    has_primary_output := true,
    implementation := Impl.unresolved "graphene_core::vector::generator_nodes::RectangleGenerator",
    posX := x,
    posY := 3,
    skip_deduplication := false,
    world_state_hash := 0,
    path := J.null }

/-- Legacy network Output node at a given X feeding from a given id. -/
def out_node (x : Int) (feed : Nat) : LNode :=
  { name := "Output",
    inputs := [NodeInput.node feed 0 false],
    manual_composition := none,
    has_primary_output := true,
    implementation := Impl.unresolved "graphene_core::ops::IdNode",
    posX := x,
    posY := 4,
    skip_deduplication := false,
    world_state_hash := 0,
    path := J.null }

/-- Legacy Shape node at a given X, as in the pre-migration documents. -/
def shape_node (x : Int) : LNode :=
  { name := "Shape",
    inputs := [NodeInput.value (J.jobj [("Value", J.null)])],
    manual_composition := none,
    has_primary_output := true,
    implementation := Impl.unresolved "graphene_core::vector::generator_nodes::PathGenerator",
    posX := x,
    posY := 3,
    skip_deduplication := true,
    world_state_hash := 5,
    path := J.null }

/-- Legacy Transform node at a given X. -/
def legacy_transform_node (x : Int) : LNode :=
  { name := "Transform",
    inputs := [NodeInput.node 10 0 false],
    manual_composition := none,
    has_primary_output := true,
    implementation := Impl.unresolved "old::transform",
    posX := x,
    posY := 6,
    skip_deduplication := true,
    world_state_hash := 9,
    path := J.jstr "p" }

/-- Node ids referenced by the Node entries of an input list. -/
def inputs_refs (l : List NodeInput) : List Nat :=
  l.filterMap (fun i =>
    match i with
    | NodeInput.node r _ _ => some r
    | NodeInput.value _ => none)

/-- Node ids referenced by the Node inputs of a node. -/
def node_refs (n : LNode) : List Nat :=
  inputs_refs n.inputs

/-- Every Node reference of every node of the mapping satisfies P. -/
def RefsP (m : List (Nat × LNode)) (P : Nat → Prop) : Prop :=
  ∀ k n, alookup k m = some n → ∀ r ∈ node_refs n, P r

/-- Fresh-id values handed out by a renumbering table. -/
def NIVal (ni : List (Nat × Nat)) (v : Nat) : Prop :=
  ∃ o, alookup o ni = some v

section AListLemmas

variable {κ α : Type} [DecidableEq κ]

theorem alookup_append (k : κ) (m l : List (κ × α)) :
    alookup k (m ++ l) = match alookup k m with
      | some x => some x
      | none => alookup k l := by
  induction m with
  | nil => simp [alookup]
  | cons p t ih =>
    by_cases h : p.1 = k <;> simp [alookup, h, ih]

theorem alookup_map_replace (k k' : κ) (v : α) (m : List (κ × α)) :
    alookup k' (m.map (fun p => if p.1 = k then (k, v) else p)) =
      if k' = k then (if (alookup k m).isSome then some v else none)
      else alookup k' m := by
  induction m with
  | nil => simp [alookup]
  | cons p t ih =>
    by_cases hpk : p.1 = k
    · by_cases hk : k' = k
      · subst hk
        simp [alookup, hpk]
      · have hkk : ¬ (k = k') := fun h => hk h.symm
        simp [alookup, hpk, hk, hkk, ih]
    · by_cases hpk' : p.1 = k'
      · by_cases hk : k' = k
        · exact absurd (hpk'.trans hk) hpk
        · simp [alookup, hpk, hpk', hk]
      · simp [alookup, hpk, hpk', ih]

theorem alookup_ainsert (k k' : κ) (v : α) (m : List (κ × α)) :
    alookup k' (ainsert k v m) = if k' = k then some v else alookup k' m := by
  unfold ainsert
  by_cases h : (alookup k m).isSome
  · rw [if_pos h, alookup_map_replace]
    by_cases hk : k' = k <;> simp [hk, h]
  · rw [if_neg h, alookup_append]
    by_cases hk : k' = k
    · subst hk
      have hnone : alookup k' m = none := by
        cases hm : alookup k' m
        · rfl
        · exact absurd (by simp [hm]) h
      simp [hnone, alookup]
    · have hkk : ¬ (k = k') := fun h => hk h.symm
      cases hm : alookup k' m
      · simp [alookup, hkk, hm, hk]
      · simp [hm, hk]

theorem alookup_ainsert_self (k : κ) (v : α) (m : List (κ × α)) :
    alookup k (ainsert k v m) = some v := by
  simp [alookup_ainsert]

theorem hasKey_ainsert (k k' : κ) (v : α) (m : List (κ × α)) :
    hasKey (ainsert k v m) k' ↔ k' = k ∨ hasKey m k' := by
  unfold hasKey
  rw [alookup_ainsert]
  by_cases hk : k' = k <;> simp [hk]

theorem hasKey_ainsert_of (k k' : κ) (v : α) (m : List (κ × α)) (h : hasKey m k') :
    hasKey (ainsert k v m) k' := by
  rw [hasKey_ainsert]
  exact Or.inr h

theorem hasKey_ainsert_self (k : κ) (v : α) (m : List (κ × α)) :
    hasKey (ainsert k v m) k := by
  rw [hasKey_ainsert]
  exact Or.inl rfl

theorem alookup_zip_mem {o v : Nat} (olds ids : List Nat)
    (h : alookup o (olds.zip ids) = some v) : v ∈ ids ∧ o ∈ olds := by
  induction olds generalizing ids with
  | nil => simp [alookup] at h
  | cons a t ih =>
    cases ids with
    | nil => simp [alookup] at h
    | cons b bt =>
      simp only [List.zip_cons_cons, alookup] at h
      by_cases ha : a = o
      · rw [if_pos ha] at h
        cases h
        exact ⟨List.mem_cons_self _ _, ha ▸ List.mem_cons_self _ _⟩
      · rw [if_neg ha] at h
        rcases ih bt h with ⟨h1, h2⟩
        exact ⟨List.mem_cons_of_mem _ h1, List.mem_cons_of_mem _ h2⟩

end AListLemmas

theorem gen_id_eq (n : Nat) : gen_id n = 42 + n := by
  induction n with
  | zero => rfl
  | succ k ih => simp [gen_id, ih]; omega

theorem gen_y_eq (n : Nat) : gen_y n = 7 + 3 * n := by
  induction n with
  | zero => rfl
  | succ k ih => simp [gen_y, ih]; omega

theorem RefsP_mono {m : List (Nat × LNode)} {P Q : Nat → Prop}
    (h : RefsP m P) (hpq : ∀ r, P r → Q r) : RefsP m Q :=
  fun k n hk r hr => hpq r (h k n hk r hr)

theorem node_refs_finalize (s i y : Int) (n : LNode) :
    node_refs (finalize_node s i y n) = node_refs n := rfl

theorem node_refs_transform_fixup (n : LNode) :
    node_refs (transform_fixup n) = node_refs n := by
  unfold transform_fixup
  split <;> rfl

theorem node_refs_cull_rename (s i y : Int) (sh : Nat) (n : LNode) :
    node_refs (cull_rename s i y sh n) = [sh] := rfl

theorem node_refs_shape_duplicate (s i y : Int) (n : LNode) :
    node_refs (shape_duplicate s i y n) = node_refs n := rfl

theorem node_refs_set_inputs (n : LNode) (l : List NodeInput) :
    node_refs { n with inputs := l } = inputs_refs l := rfl

theorem renumber_inputs_refs {ni : List (Nat × Nat)} :
    ∀ {ins ins2 : List NodeInput}, renumber_inputs ni ins = some ins2 →
      ∀ r ∈ inputs_refs ins2, NIVal ni r := by
  intro ins
  induction ins with
  | nil =>
    intro ins2 h r hr
    unfold renumber_inputs at h
    cases h
    simp [inputs_refs] at hr
  | cons i rest ih =>
    intro ins2 h r hr
    unfold renumber_inputs at h
    cases hi : renumber_input ni i with
    | none => rw [hi] at h; cases h
    | some i2 =>
      rw [hi] at h
      cases hrest : renumber_inputs ni rest with
      | none => rw [hrest] at h; cases h
      | some r2 =>
        rw [hrest] at h
        cases h
        cases i with
        | node a oi lb =>
          simp only [renumber_input] at hi
          cases ha : alookup a ni with
          | none => rw [ha] at hi; cases hi
          | some a2 =>
            rw [ha] at hi
            cases hi
            simp [inputs_refs] at hr
            rcases hr with hr | hr
            · exact ⟨a, by rw [ha, hr]⟩
            · exact ih hrest r (by simpa [inputs_refs] using hr)
        | value v =>
          simp only [renumber_input] at hi
          cases hi
          simp [inputs_refs] at hr
          exact ih hrest r (by simpa [inputs_refs] using hr)

theorem node_refs_layer_wrapper {o nid : Option Nat} {indent y : Int} {r : Nat}
    (hr : r ∈ node_refs (layer_wrapper o nid indent y)) :
    (∃ j, o = some j ∧ r = j) ∨ (∃ j, nid = some j ∧ r = j) := by
  cases o with
  | none =>
    cases nid with
    | none =>
      simp [layer_wrapper, node_refs, inputs_refs, node_to_input, empty_group_input,
        jLiteralInput] at hr
    | some j =>
      by_cases hj : j = 0
      · subst hj
        simp [layer_wrapper, node_refs, inputs_refs, node_to_input, empty_group_input,
          jLiteralInput] at hr
      · simp [layer_wrapper, node_refs, inputs_refs, node_to_input, empty_group_input,
          jLiteralInput, hj] at hr
        exact Or.inr ⟨j, rfl, hr⟩
  | some i =>
    by_cases hi : i = 0
    · subst hi
      cases nid with
      | none =>
        simp [layer_wrapper, node_refs, inputs_refs, node_to_input, empty_group_input,
          jLiteralInput] at hr
      | some j =>
        by_cases hj : j = 0
        · subst hj
          simp [layer_wrapper, node_refs, inputs_refs, node_to_input, empty_group_input,
            jLiteralInput] at hr
        · simp [layer_wrapper, node_refs, inputs_refs, node_to_input, empty_group_input,
            jLiteralInput, hj] at hr
          exact Or.inr ⟨j, rfl, hr⟩
    · cases nid with
      | none =>
        simp [layer_wrapper, node_refs, inputs_refs, node_to_input, empty_group_input,
          jLiteralInput, hi] at hr
        exact Or.inl ⟨i, rfl, hr⟩
      | some j =>
        by_cases hj : j = 0
        · subst hj
          simp [layer_wrapper, node_refs, inputs_refs, node_to_input, empty_group_input,
            jLiteralInput, hi] at hr
          exact Or.inl ⟨i, rfl, hr⟩
        · simp [layer_wrapper, node_refs, inputs_refs, node_to_input, empty_group_input,
            jLiteralInput, hi, hj] at hr
          rcases hr with hr | hr
          · exact Or.inl ⟨i, rfl, hr⟩
          · exact Or.inr ⟨j, rfl, hr⟩

/-- Case analysis of the Shape branch: either nothing happened (not a
Shape, or a Cull already present), or the duplicate was emitted under
the fresh id and the node became the Cull node. -/
theorem shape_cull_cases {olds : List Nat} {netm : List (Nat × LNode)} {shift indent y : Int}
    {n : LNode} {s : MState} {n' : LNode} {s' : MState}
    (h : shape_cull_step olds netm shift indent y n s = some (n', s')) :
    (n' = n ∧ s' = s ∧ (n.name = "Shape" → cull_check netm olds = some true)) ∨
    (n.name = "Shape" ∧ cull_check netm olds = some false ∧
     n' = cull_rename shift indent y s.nextId n ∧
     s' = { s with
              nextId := s.nextId + 1,
              new_nodes := ainsert s.nextId (shape_duplicate shift indent y n) s.new_nodes }) := by
  unfold shape_cull_step at h
  by_cases hn : n.name = "Shape"
  · rw [if_pos hn] at h
    cases hc : cull_check netm olds with
    | none => rw [hc] at h; cases h
    | some b =>
      rw [hc] at h
      cases b
      · simp only [Option.some.injEq, Prod.mk.injEq] at h
        exact Or.inr ⟨hn, rfl, h.1.symm, h.2.symm⟩
      · simp only [Option.some.injEq, Prod.mk.injEq] at h
        exact Or.inl ⟨h.1.symm, h.2.symm, fun _ => rfl⟩
  · rw [if_neg hn] at h
    simp only [Option.some.injEq, Prod.mk.injEq] at h
    exact Or.inl ⟨h.1.symm, h.2.symm, fun hs => absurd hs hn⟩

/-- Facts established by one iteration of the per-node loop. -/
structure NodeStepPost (new_ids : List (Nat × Nat)) (old : Nat)
    (acc acc2 : List (Nat × LNode) × MState) : Prop where
  net_keys : ∀ k, hasKey acc2.1 k ↔ hasKey acc.1 k
  id_mono : acc.2.nextId ≤ acc2.2.nextId
  y_eq : acc2.2.nextY = acc.2.nextY
  keys_mono : ∀ k, hasKey acc.2.new_nodes k → hasKey acc2.2.new_nodes k
  emit : ∀ nn, alookup old new_ids = some nn → hasKey acc2.2.new_nodes nn
  refs : ∀ P : Nat → Prop,
    RefsP acc.2.new_nodes (fun r => hasKey acc.2.new_nodes r ∨ P r) →
    (∀ v, NIVal new_ids v → P v) →
    RefsP acc2.2.new_nodes (fun r => hasKey acc2.2.new_nodes r ∨ P r)
  lt_inv : (∀ k, hasKey acc.2.new_nodes k → k < acc.2.nextId) →
    (∀ v, NIVal new_ids v → v < acc.2.nextId) →
    ∀ k, hasKey acc2.2.new_nodes k → k < acc2.2.nextId
  preserve : ∀ v, v < acc.2.nextId →
    (∀ nn, alookup old new_ids = some nn → nn ≠ v) →
    alookup v acc2.2.new_nodes = alookup v acc.2.new_nodes
  net_preserve : ∀ k, k ≠ old → alookup k acc2.1 = alookup k acc.1

/-- One iteration of the per-node loop establishes the step facts. -/
theorem process_network_node_post {olds : List Nat} {new_ids : List (Nat × Nat)}
    {shift indent y : Int} {acc acc2 : List (Nat × LNode) × MState} {old : Nat}
    (h : process_network_node olds new_ids shift indent y acc old = some acc2) :
    NodeStepPost new_ids old acc acc2 := by
  unfold process_network_node at h
  cases h0 : alookup old acc.1 with
  | none => rw [h0] at h; cases h
  | some node0 =>
  rw [h0] at h
  dsimp only [] at h
  cases h1 : renumber_inputs new_ids node0.inputs with
  | none => rw [h1] at h; cases h
  | some inputs2 =>
  rw [h1] at h
  dsimp only [] at h
  cases h2 : shape_cull_step olds acc.1 shift indent y
      (transform_fixup { node0 with inputs := inputs2 }) acc.2 with
  | none => rw [h2] at h; cases h
  | some p =>
  rw [h2] at h
  obtain ⟨node3, s3⟩ := p
  dsimp only [] at h
  cases h3 : alookup old new_ids with
  | none => rw [h3] at h; cases h
  | some nn =>
  rw [h3] at h
  dsimp only [] at h
  injection h with h4
  subst h4
  have hold : hasKey acc.1 old := by simp [hasKey, h0]
  rcases shape_cull_cases h2 with ⟨h5, h6, _⟩ | ⟨hShape, hCull, h5, h6⟩
  · subst h5
    subst h6
    refine ⟨?_, ?_, ?_, ?_, ?_, ?_, ?_, ?_, ?_⟩
    · intro k
      rw [hasKey_ainsert]
      constructor
      · rintro (rfl | hk)
        · exact hold
        · exact hk
      · exact Or.inr
    · exact Nat.le_refl _
    · rfl
    · intro k hk
      exact hasKey_ainsert_of _ _ _ _ hk
    · intro nn2 hnn2
      rw [h3] at hnn2
      injection hnn2 with hnn2
      subst hnn2
      exact hasKey_ainsert_self _ _ _
    · intro P hR hNI k n hkn r hr
      dsimp only [] at hkn ⊢
      rw [alookup_ainsert] at hkn
      by_cases hknn : k = nn
      · rw [if_pos hknn] at hkn
        injection hkn with hkn
        subst hkn
        rw [node_refs_finalize, node_refs_transform_fixup, node_refs_set_inputs] at hr
        exact Or.inr (hNI r (renumber_inputs_refs h1 r hr))
      · rw [if_neg hknn] at hkn
        rcases hR k n hkn r hr with hk | hp
        · exact Or.inl (hasKey_ainsert_of _ _ _ _ hk)
        · exact Or.inr hp
    · intro hK hNI k hk
      dsimp only [] at hk ⊢
      rw [hasKey_ainsert] at hk
      rcases hk with rfl | hk
      · exact hNI k ⟨old, h3⟩
      · exact hK k hk
    · intro v hv hnn
      dsimp only []
      rw [alookup_ainsert]
      exact if_neg (fun he => hnn nn h3 he.symm)
    · intro k hko
      rw [alookup_ainsert]
      exact if_neg hko
  · subst h5
    subst h6
    refine ⟨?_, ?_, ?_, ?_, ?_, ?_, ?_, ?_, ?_⟩
    · intro k
      rw [hasKey_ainsert]
      constructor
      · rintro (rfl | hk)
        · exact hold
        · exact hk
      · exact Or.inr
    · exact Nat.le_succ _
    · rfl
    · intro k hk
      exact hasKey_ainsert_of _ _ _ _ (hasKey_ainsert_of _ _ _ _ hk)
    · intro nn2 hnn2
      rw [h3] at hnn2
      injection hnn2 with hnn2
      subst hnn2
      exact hasKey_ainsert_self _ _ _
    · intro P hR hNI k n hkn r hr
      dsimp only [] at hkn ⊢
      rw [alookup_ainsert] at hkn
      by_cases hknn : k = nn
      · rw [if_pos hknn] at hkn
        injection hkn with hkn
        subst hkn
        rw [node_refs_finalize, node_refs_cull_rename] at hr
        rcases List.mem_singleton.mp hr with rfl
        refine Or.inl ?_
        exact hasKey_ainsert_of _ _ _ _ (hasKey_ainsert_self _ _ _)
      · rw [if_neg hknn] at hkn
        rw [alookup_ainsert] at hkn
        by_cases hksh : k = acc.2.nextId
        · rw [if_pos hksh] at hkn
          injection hkn with hkn
          subst hkn
          rw [node_refs_shape_duplicate, node_refs_transform_fixup, node_refs_set_inputs] at hr
          exact Or.inr (hNI r (renumber_inputs_refs h1 r hr))
        · rw [if_neg hksh] at hkn
          rcases hR k n hkn r hr with hk | hp
          · exact Or.inl (hasKey_ainsert_of _ _ _ _ (hasKey_ainsert_of _ _ _ _ hk))
          · exact Or.inr hp
    · intro hK hNI k hk
      dsimp only [] at hk ⊢
      rw [hasKey_ainsert] at hk
      rcases hk with rfl | hk
      · exact Nat.lt_succ_of_lt (hNI k ⟨old, h3⟩)
      · rw [hasKey_ainsert] at hk
        rcases hk with rfl | hk
        · exact Nat.lt_succ_self _
        · exact Nat.lt_succ_of_lt (hK k hk)
    · intro v hv hnn
      dsimp only []
      rw [alookup_ainsert]
      rw [if_neg (fun he => hnn nn h3 he.symm)]
      rw [alookup_ainsert]
      exact if_neg (fun he => Nat.lt_irrefl _ (he ▸ hv))
    · intro k hko
      rw [alookup_ainsert]
      exact if_neg hko

/-- Facts established by the whole per-node loop. -/
structure NodeFoldPost (new_ids : List (Nat × Nat)) (iter : List Nat)
    (acc acc2 : List (Nat × LNode) × MState) : Prop where
  net_keys : ∀ k, hasKey acc2.1 k ↔ hasKey acc.1 k
  id_mono : acc.2.nextId ≤ acc2.2.nextId
  y_eq : acc2.2.nextY = acc.2.nextY
  keys_mono : ∀ k, hasKey acc.2.new_nodes k → hasKey acc2.2.new_nodes k
  cover : ∀ old ∈ iter, ∀ nn, alookup old new_ids = some nn → hasKey acc2.2.new_nodes nn
  refs : ∀ P : Nat → Prop,
    RefsP acc.2.new_nodes (fun r => hasKey acc.2.new_nodes r ∨ P r) →
    (∀ v, NIVal new_ids v → P v) →
    RefsP acc2.2.new_nodes (fun r => hasKey acc2.2.new_nodes r ∨ P r)
  lt_inv : (∀ k, hasKey acc.2.new_nodes k → k < acc.2.nextId) →
    (∀ v, NIVal new_ids v → v < acc.2.nextId) →
    ∀ k, hasKey acc2.2.new_nodes k → k < acc2.2.nextId
  preserve : ∀ v, v < acc.2.nextId →
    (∀ o ∈ iter, ∀ nn, alookup o new_ids = some nn → nn ≠ v) →
    alookup v acc2.2.new_nodes = alookup v acc.2.new_nodes
  net_preserve : ∀ k, k ∉ iter → alookup k acc2.1 = alookup k acc.1

/-- The per-node loop, folded over the whole iteration list, establishes
the fold facts, in particular that every processed old id got its
renumbered node emitted. -/
theorem process_network_post {olds : List Nat} {new_ids : List (Nat × Nat)}
    {shift indent y : Int} :
    ∀ {iter : List Nat} {acc acc2 : List (Nat × LNode) × MState},
      process_network olds new_ids shift indent y iter acc = some acc2 →
      NodeFoldPost new_ids iter acc acc2 := by
  intro iter
  induction iter with
  | nil =>
    intro acc acc2 h
    unfold process_network at h
    injection h with h
    subst h
    exact ⟨fun k => Iff.rfl, Nat.le_refl _, rfl, fun k hk => hk,
           fun old hmem => absurd hmem (List.not_mem_nil old),
           fun P hR _ => hR, fun hK _ k hk => hK k hk,
           fun v _ _ => rfl, fun k _ => rfl⟩
  | cons o rest ih =>
    intro acc acc2 h
    unfold process_network at h
    cases h0 : process_network_node olds new_ids shift indent y acc o with
    | none => rw [h0] at h; cases h
    | some accm =>
      rw [h0] at h
      dsimp only [] at h
      have p1 := process_network_node_post h0
      have p2 := ih h
      refine ⟨?_, ?_, ?_, ?_, ?_, ?_, ?_, ?_, ?_⟩
      · intro k
        exact (p2.net_keys k).trans (p1.net_keys k)
      · exact Nat.le_trans p1.id_mono p2.id_mono
      · exact p2.y_eq.trans p1.y_eq
      · intro k hk
        exact p2.keys_mono k (p1.keys_mono k hk)
      · intro old hmem nn hnn
        rcases List.mem_cons.mp hmem with rfl | hmem
        · exact p2.keys_mono nn (p1.emit nn hnn)
        · exact p2.cover old hmem nn hnn
      · intro P hR hNI
        exact p2.refs P (p1.refs P hR hNI) hNI
      · intro hK hNI k hk
        refine p2.lt_inv (p1.lt_inv hK hNI) ?_ k hk
        intro v hv
        exact Nat.lt_of_lt_of_le (hNI v hv) p1.id_mono
      · intro v hv hnn
        rw [p2.preserve v (Nat.lt_of_lt_of_le hv p1.id_mono)
              (fun o homem nn hnn2 => hnn o (List.mem_cons_of_mem _ homem) nn hnn2)]
        exact p1.preserve v hv (fun nn hnn2 => hnn o (List.mem_cons_self _ _) nn hnn2)
      · intro k hk
        rw [p2.net_preserve k (fun hmem => hk (List.mem_cons_of_mem _ hmem))]
        exact p1.net_preserve k (fun he => hk (he ▸ List.mem_cons_self _ _))

/-- Facts established by one successful update_layer call. -/
structure LayerPost (indent : Int) (lid : Nat) (nid : Option Nat) (s s' : MState) : Prop where
  keys_mono : ∀ k, hasKey s.new_nodes k → hasKey s'.new_nodes k
  lid_emitted : hasKey s'.new_nodes lid
  id_mono : s.nextId ≤ s'.nextId
  y_step : s.nextY < s'.nextY
  refs : ∀ P : Nat → Prop,
    RefsP s.new_nodes (fun r => hasKey s.new_nodes r ∨ P r ∨ r = lid) →
    RefsP s'.new_nodes (fun r => hasKey s'.new_nodes r ∨ P r ∨ (∃ j, nid = some j ∧ r = j))
  lt_inv : (∀ k, hasKey s.new_nodes k → k < s.nextId) → lid < s.nextId →
    ∀ k, hasKey s'.new_nodes k → k < s'.nextId
  wrapper : ∃ o, alookup lid s'.new_nodes = some (layer_wrapper o nid indent (Int.ofNat s.nextY))

/-- The child loop of the Folder branch establishes monotonicity, the
emission of the first positional id, the pending-reference transfer
along the positional id chain and the id upper bound, assuming every
recursive call establishes the per-call facts. -/
theorem update_children_go_post
    {f : LayerData → Int → Nat → Option Nat → MState → Option MState}
    (hf : ∀ l ind lid nid s s', f l ind lid nid s = some s' → LayerPost ind lid nid s s') :
    ∀ (ls : List LayerData) (ids : List Nat) (ind : Int) (s s' : MState),
      update_children_go f ls ids ind s = some s' →
      (∀ k, hasKey s.new_nodes k → hasKey s'.new_nodes k) ∧
      s.nextId ≤ s'.nextId ∧
      s.nextY ≤ s'.nextY ∧
      (ls ≠ [] → ∀ h0, ids.head? = some h0 → hasKey s'.new_nodes h0) ∧
      (∀ P : Nat → Prop,
        RefsP s.new_nodes
          (fun r => hasKey s.new_nodes r ∨ P r ∨ (∃ j, ids.head? = some j ∧ r = j)) →
        RefsP s'.new_nodes
          (fun r => hasKey s'.new_nodes r ∨ P r ∨ (∃ j, (ids.drop ls.length).head? = some j ∧ r = j))) ∧
      ((∀ k, hasKey s.new_nodes k → k < s.nextId) → (∀ i ∈ ids, i < s.nextId) →
        ∀ k, hasKey s'.new_nodes k → k < s'.nextId) := by
  intro ls
  induction ls with
  | nil =>
    intro ids ind s s' h
    unfold update_children_go at h
    injection h with h
    subst h
    exact ⟨fun k hk => hk, Nat.le_refl _, Nat.le_refl _,
           fun hne => absurd rfl hne,
           fun P hR => by simpa using hR,
           fun hK _ k hk => hK k hk⟩
  | cons l rest ih =>
    intro ids ind s s' h
    unfold update_children_go at h
    cases ids with
    | nil => cases h
    | cons lid restIds =>
      dsimp only [] at h
      cases h1 : f l ind lid restIds.head? s with
      | none => rw [h1] at h; cases h
      | some s2 =>
        rw [h1] at h
        dsimp only [] at h
        have p1 := hf l ind lid restIds.head? s s2 h1
        obtain ⟨q_keys, q_id, q_y, q_head, q_refs, q_lt⟩ := ih restIds ind s2 s' h
        refine ⟨?_, ?_, ?_, ?_, ?_, ?_⟩
        · intro k hk
          exact q_keys k (p1.keys_mono k hk)
        · exact Nat.le_trans p1.id_mono q_id
        · exact Nat.le_trans (Nat.le_of_lt p1.y_step) q_y
        · intro _ h0 hh0
          have e : lid = h0 := by
            rw [List.head?_cons] at hh0
            exact Option.some.inj hh0
          exact e ▸ q_keys lid p1.lid_emitted
        · intro P hR
          have hpre : RefsP s.new_nodes
              (fun r => hasKey s.new_nodes r ∨ P r ∨ r = lid) := by
            refine RefsP_mono hR ?_
            rintro r (hk | hp | ⟨j, hj, rfl⟩)
            · exact Or.inl hk
            · exact Or.inr (Or.inl hp)
            · injection hj with hj
              exact Or.inr (Or.inr hj.symm)
          have hmid := p1.refs P hpre
          have hmid2 : RefsP s2.new_nodes
              (fun r => hasKey s2.new_nodes r ∨ P r ∨ (∃ j, restIds.head? = some j ∧ r = j)) := by
            refine RefsP_mono hmid ?_
            rintro r (hk | hp | hj)
            · exact Or.inl hk
            · exact Or.inr (Or.inl hp)
            · exact Or.inr (Or.inr hj)
          exact q_refs P hmid2
        · intro hK hids k hk
          refine q_lt (p1.lt_inv hK (hids lid (List.mem_cons_self _ _))) ?_ k hk
          intro i hi
          exact Nat.lt_of_lt_of_le (hids i (List.mem_cons_of_mem _ hi)) p1.id_mono

/-- Facts established by a successful run of the branch body of
update_layer (everything between the y draw and the assert). -/
structure CorePost (s0 s1 : MState) (output : Option Nat) : Prop where
  keys_mono : ∀ k, hasKey s0.new_nodes k → hasKey s1.new_nodes k
  id_mono : s0.nextId ≤ s1.nextId
  y_mono : s0.nextY ≤ s1.nextY
  out_emitted : ∀ j, output = some j → hasKey s1.new_nodes j
  refs : ∀ P : Nat → Prop,
    RefsP s0.new_nodes (fun r => hasKey s0.new_nodes r ∨ P r) →
    RefsP s1.new_nodes (fun r => hasKey s1.new_nodes r ∨ P r)
  lt_inv : (∀ k, hasKey s0.new_nodes k → k < s0.nextId) →
    ∀ k, hasKey s1.new_nodes k → k < s1.nextId

/-- The branch body establishes the core facts, assuming every recursive
call establishes the per-call facts.  In particular the computed output
reference, when present, is already a key of the mapping, which is what
the assert of line 77 checks. -/
theorem update_core_go_post
    {f : LayerData → Int → Nat → Option Nat → MState → Option MState}
    (hf : ∀ l ind lid nid s s', f l ind lid nid s = some s' → LayerPost ind lid nid s s')
    {data : LayerData} {ind y : Int} {s0 s1 : MState} {output : Option Nat}
    (h : update_core_go f data ind y s0 = some (s1, output)) :
    CorePost s0 s1 output := by
  cases data with
  | folder layers =>
    unfold update_core_go at h
    dsimp only [] at h
    cases hc : update_children_go f layers.reverse (List.range' s0.nextId layers.length)
        (ind + 5) { s0 with nextId := s0.nextId + layers.length + 1 } with
    | none => rw [hc] at h; cases h
    | some s2 =>
      rw [hc] at h
      dsimp only [] at h
      cases hh : (List.range' s0.nextId layers.length).head? with
      | none => rw [hh] at h; cases h
      | some h0 =>
        rw [hh] at h
        dsimp only [] at h
        injection h with h
        injection h with h hout
        subst h
        subst hout
        obtain ⟨q_keys, q_id, q_y, q_head, q_refs, q_lt⟩ :=
          update_children_go_post hf layers.reverse (List.range' s0.nextId layers.length)
            (ind + 5) _ _ hc
        have hlen : layers.reverse.length = (List.range' s0.nextId layers.length).length := by
          simp
        have hne : layers.reverse ≠ [] := by
          intro hnil
          cases hl : layers.length with
          | zero =>
            rw [hl] at hh
            cases hh
          | succ m =>
            have : layers.reverse.length = 0 := by rw [hnil]; rfl
            rw [List.length_reverse, hl] at this
            cases this
        refine ⟨?_, ?_, ?_, ?_, ?_, ?_⟩
        · intro k hk
          exact q_keys k hk
        · exact Nat.le_trans (Nat.le_add_right _ _) (Nat.le_trans (Nat.le_succ _) q_id)
        · exact q_y
        · intro j hj
          have e : h0 = j := Option.some.inj hj
          exact e ▸ q_head hne h0 hh
        · intro P hR
          have hpost := q_refs P (by
            refine RefsP_mono hR ?_
            rintro r (hk | hp)
            · exact Or.inl hk
            · exact Or.inr (Or.inl hp))
          refine RefsP_mono hpost ?_
          rintro r (hk | hp | ⟨j, hj, rfl⟩)
          · exact Or.inl hk
          · exact Or.inr hp
          · have hdrop : List.drop layers.reverse.length (List.range' s0.nextId layers.length) = [] := by
              apply List.drop_eq_nil_of_le
              simp
            rw [hdrop] at hj
            cases hj
        · intro hK k hk
          refine q_lt ?_ ?_ k hk
          · intro k2 hk2
            exact Nat.lt_of_lt_of_le (hK k2 hk2) (Nat.le_trans (Nat.le_add_right _ _) (Nat.le_succ _))
          · intro i hi
            rw [List.mem_range'_1] at hi
            show i < s0.nextId + layers.length + 1
            omega
  | layer net =>
    unfold update_core_go at h
    dsimp only [] at h
    cases hnet : update_layer_network net ind y s0 with
    | none => rw [hnet] at h; cases h
    | some p =>
      rw [hnet] at h
      obtain ⟨s2, out⟩ := p
      dsimp only [] at h
      injection h with h
      injection h with h hout
      subst h
      subst hout
      unfold update_layer_network at hnet
      dsimp only [] at hnet
      split at hnet
      · cases hnet
      · rename_i out0 ho
        split at hnet
        · cases hnet
        · rename_i output_node ho2
          split at hnet
          · cases hnet
          · cases hnet
          · rename_i fid oi lb he
            split at hnet
            · cases hnet
            · rename_i outv hfid
              split at hnet
              · cases hnet
              · rename_i net2 s3 hpn
                injection hnet with hnet
                injection hnet with hnet hout2
                subst hnet
                subst hout2
                have fp := process_network_post hpn
                have hniv : ∀ v, NIVal ((network_olds net).zip
                    (List.range' s0.nextId (network_olds net).length)) v →
                    hasKey s3.new_nodes v := by
                  intro v hv
                  obtain ⟨o, hov⟩ := hv
                  obtain ⟨_, homem⟩ := alookup_zip_mem _ _ hov
                  exact fp.cover o homem v hov
                refine ⟨?_, ?_, ?_, ?_, ?_, ?_⟩
                · intro k hk
                  exact fp.keys_mono k hk
                · exact Nat.le_trans (Nat.le_add_right _ _) fp.id_mono
                · exact Nat.le_of_eq fp.y_eq.symm
                · intro j hj
                  have e : outv = j := Option.some.inj hj
                  exact e ▸ hniv outv ⟨fid, hfid⟩
                · intro P hR
                  have hpost := fp.refs
                    (fun r => P r ∨ NIVal ((network_olds net).zip
                      (List.range' s0.nextId (network_olds net).length)) r)
                    (by
                      refine RefsP_mono hR ?_
                      rintro r (hk | hp)
                      · exact Or.inl hk
                      · exact Or.inr (Or.inl hp))
                    (fun v hv => Or.inr hv)
                  refine RefsP_mono hpost ?_
                  rintro r (hk | hp | hv)
                  · exact Or.inl hk
                  · exact Or.inr hp
                  · exact Or.inl (hniv r hv)
                · intro hK k hk
                  refine fp.lt_inv ?_ ?_ k hk
                  · intro k2 hk2
                    exact Nat.lt_of_lt_of_le (hK k2 hk2) (Nat.le_add_right _ _)
                  · intro v hv
                    obtain ⟨o, hov⟩ := hv
                    obtain ⟨hvmem, _⟩ := alookup_zip_mem _ _ hov
                    rw [List.mem_range'_1] at hvmem
                    show v < s0.nextId + (network_olds net).length
                    omega

/-- Value-level characterization of one iteration of the per-node loop:
the node found at the old id is renumbered, conditionally fixed up and
finalized; the network mapping is updated in place at the old id, and
the emitted node goes under the renumbered id.  The Shape branch, when
it fires, additionally emits the duplicate under the id drawn at this
iteration. -/
theorem process_network_node_spec {olds : List Nat} {new_ids : List (Nat × Nat)}
    {shift indent y : Int} {netm : List (Nat × LNode)} {s : MState}
    {netm2 : List (Nat × LNode)} {s' : MState} {old : Nat}
    (h : process_network_node olds new_ids shift indent y (netm, s) old = some (netm2, s')) :
    ∃ n0 ins2 nn,
      alookup old netm = some n0 ∧
      renumber_inputs new_ids n0.inputs = some ins2 ∧
      alookup old new_ids = some nn ∧
      ∃ node3 s3,
        netm2 = ainsert old (finalize_node shift indent y node3) netm ∧
        s' = { s3 with new_nodes := ainsert nn (finalize_node shift indent y node3) s3.new_nodes } ∧
        ((node3 = transform_fixup { n0 with inputs := ins2 } ∧ s3 = s ∧
          ((transform_fixup { n0 with inputs := ins2 }).name = "Shape" →
            cull_check netm olds = some true)) ∨
         ((transform_fixup { n0 with inputs := ins2 }).name = "Shape" ∧
          cull_check netm olds = some false ∧
          node3 = cull_rename shift indent y s.nextId (transform_fixup { n0 with inputs := ins2 }) ∧
          s3 = { s with
                   nextId := s.nextId + 1,
                   new_nodes := ainsert s.nextId
                     (shape_duplicate shift indent y (transform_fixup { n0 with inputs := ins2 }))
                     s.new_nodes })) := by
  unfold process_network_node at h
  cases h0 : alookup old netm with
  | none => rw [h0] at h; cases h
  | some node0 =>
  rw [h0] at h
  dsimp only [] at h
  cases h1 : renumber_inputs new_ids node0.inputs with
  | none => rw [h1] at h; cases h
  | some inputs2 =>
  rw [h1] at h
  dsimp only [] at h
  cases h2 : shape_cull_step olds netm shift indent y
      (transform_fixup { node0 with inputs := inputs2 }) s with
  | none => rw [h2] at h; cases h
  | some p =>
  rw [h2] at h
  obtain ⟨node3, s3⟩ := p
  dsimp only [] at h
  cases h3 : alookup old new_ids with
  | none => rw [h3] at h; cases h
  | some nn =>
  rw [h3] at h
  dsimp only [] at h
  injection h with h
  injection h with hnet hstate
  refine ⟨node0, inputs2, nn, rfl, h1, rfl, node3, s3, hnet.symm, hstate.symm, ?_⟩
  rcases shape_cull_cases h2 with ⟨h5, h6, h7⟩ | ⟨hShape, hCull, h5, h6⟩
  · exact Or.inl ⟨h5, h6, h7⟩
  · exact Or.inr ⟨hShape, hCull, h5, h6⟩

/-- Per-element emission characterization of the per-node loop: under
distinct iteration ids and a fresh, injective renumbering table, every
processed old id has its node (as found in the mapping at loop entry)
renumbered, conditionally fixed up, finalized and emitted under its
renumbered id, where it survives to the end of the loop; a Shape
insertion additionally leaves the position-shifted duplicate under a
fresh id and the Cull node under the renumbered id. -/
theorem process_network_emits {olds : List Nat} {new_ids : List (Nat × Nat)}
    {shift indent y : Int} :
    ∀ {iter : List Nat} {netm : List (Nat × LNode)} {s : MState}
      {netm2 : List (Nat × LNode)} {s2 : MState},
      process_network olds new_ids shift indent y iter (netm, s) = some (netm2, s2) →
      iter.Nodup →
      (∀ v, NIVal new_ids v → v < s.nextId) →
      (∀ o o2 v, alookup o new_ids = some v → alookup o2 new_ids = some v → o = o2) →
      ∀ o ∈ iter, ∃ n0 ins2 nn,
        alookup o netm = some n0 ∧
        renumber_inputs new_ids n0.inputs = some ins2 ∧
        alookup o new_ids = some nn ∧
        ((alookup nn s2.new_nodes =
            some (finalize_node shift indent y (transform_fixup { n0 with inputs := ins2 }))) ∨
         ((transform_fixup { n0 with inputs := ins2 }).name = "Shape" ∧
          ∃ shapeId, s.nextId ≤ shapeId ∧ shapeId < s2.nextId ∧
            alookup shapeId s2.new_nodes =
              some (shape_duplicate shift indent y (transform_fixup { n0 with inputs := ins2 })) ∧
            alookup nn s2.new_nodes =
              some (finalize_node shift indent y
                (cull_rename shift indent y shapeId (transform_fixup { n0 with inputs := ins2 }))))) := by
  intro iter
  induction iter with
  | nil =>
    intro netm s netm2 s2 h hnd hlt hinj o ho
    exact absurd ho (List.not_mem_nil o)
  | cons oh rest ih =>
    intro netm s netm2 s2 h hnd hlt hinj o ho
    unfold process_network at h
    cases hstep : process_network_node olds new_ids shift indent y (netm, s) oh with
    | none => rw [hstep] at h; cases h
    | some accA =>
      rw [hstep] at h
      dsimp only [] at h
      obtain ⟨netmA, sA⟩ := accA
      have sp := process_network_node_post hstep
      have fp := process_network_post h
      have hohrest : oh ∉ rest := (List.nodup_cons.mp hnd).1
      rcases List.mem_cons.mp ho with rfl | horest
      · obtain ⟨n0, ins2, nn, hn0, hins, hnn, node3, s3, hnetA, hsA, hbr⟩ :=
          process_network_node_spec hstep
        have hnnlt : nn < s.nextId := hlt nn ⟨o, hnn⟩
        have hfut : ∀ o2 ∈ rest, ∀ nn2, alookup o2 new_ids = some nn2 → nn2 ≠ nn := by
          intro o2 ho2 nn2 hnn2 he
          exact hohrest (hinj o o2 nn hnn (he ▸ hnn2) ▸ ho2)
        rcases hbr with ⟨hb3, hbs, _⟩ | ⟨hshape, _, hb3, hbs⟩
        · subst hb3
          subst hbs
          refine ⟨n0, ins2, nn, hn0, hins, hnn, Or.inl ?_⟩
          rw [hsA] at fp
          rw [fp.preserve nn (by exact hnnlt) hfut]
          dsimp only []
          exact alookup_ainsert_self _ _ _
        · subst hb3
          subst hbs
          refine ⟨n0, ins2, nn, hn0, hins, hnn, Or.inr ⟨hshape, s.nextId, Nat.le_refl _, ?_, ?_, ?_⟩⟩
          · have : sA.nextId ≤ s2.nextId := fp.id_mono
            rw [hsA] at this
            exact Nat.lt_of_lt_of_le (Nat.lt_succ_self _) this
          · rw [hsA] at fp
            have hfut2 : ∀ o2 ∈ rest, ∀ nn2, alookup o2 new_ids = some nn2 → nn2 ≠ s.nextId := by
              intro o2 _ nn2 hnn2 he
              exact Nat.lt_irrefl _ (he ▸ hlt nn2 ⟨o2, hnn2⟩)
            rw [fp.preserve s.nextId (by exact Nat.lt_succ_self _) hfut2]
            dsimp only []
            rw [alookup_ainsert]
            rw [if_neg (fun he => Nat.lt_irrefl _ (he ▸ hnnlt))]
            exact alookup_ainsert_self _ _ _
          · rw [hsA] at fp
            rw [fp.preserve nn (by exact Nat.lt_succ_of_lt hnnlt) hfut]
            dsimp only []
            exact alookup_ainsert_self _ _ _
      · obtain ⟨n0, ins2, nn, hn0, hins, hnn, hrest⟩ :=
          ih h (List.nodup_cons.mp hnd).2
            (fun v hv => Nat.lt_of_lt_of_le (hlt v hv) sp.id_mono) hinj o horest
        have hne : o ≠ oh := fun he => hohrest (he ▸ horest)
        refine ⟨n0, ins2, nn, ?_, hins, hnn, ?_⟩
        · rw [← sp.net_preserve o hne]
          exact hn0
        · rcases hrest with hA | ⟨hsh, shapeId, hge, hlt2, hdup, hcull⟩
          · exact Or.inl hA
          · exact Or.inr ⟨hsh, shapeId, Nat.le_trans sp.id_mono hge, hlt2, hdup, hcull⟩

theorem alookup_zip_inj {olds ids : List Nat} (hnd : olds.Nodup) (hnid : ids.Nodup) :
    ∀ {o o2 v : Nat}, alookup o (olds.zip ids) = some v →
      alookup o2 (olds.zip ids) = some v → o = o2 := by
  induction olds generalizing ids with
  | nil => intro o o2 v h; simp [alookup] at h
  | cons a t ih =>
    intro o o2 v h h2
    cases ids with
    | nil => simp [alookup] at h
    | cons b bt =>
      simp only [List.zip_cons_cons, alookup] at h h2
      by_cases hao : a = o
      · rw [if_pos hao] at h
        injection h with h
        by_cases hao2 : a = o2
        · rw [← hao, ← hao2]
        · rw [if_neg hao2] at h2
          subst h
          have hmem := (alookup_zip_mem t bt h2).1
          exact absurd hmem (List.nodup_cons.mp hnid).1
      · rw [if_neg hao] at h
        by_cases hao2 : a = o2
        · rw [if_pos hao2] at h2
          injection h2 with h2
          subst h2
          have hmem := (alookup_zip_mem t bt h).1
          exact absurd hmem (List.nodup_cons.mp hnid).1
        · rw [if_neg hao2] at h2
          exact ih (List.nodup_cons.mp hnd).2 (List.nodup_cons.mp hnid).2 h h2

/-- Decomposition of a successful update_layer_network call into its
ingredients: the declared output entry, the output node, the feeding
reference, the renumbered output and the per-node loop run.  The
horizontal shift used by the loop is the output node's own X position. -/
theorem update_layer_network_spec {net : LNetwork} {ind y : Int} {s s2 : MState} {out : Nat}
    (h : update_layer_network net ind y s = some (s2, out)) :
    ∃ out0 output_node fid oi lb netm2,
      net.outputs.head? = some out0 ∧
      alookup out0.node_id net.nodes = some output_node ∧
      output_node.inputs.head? = some (NodeInput.node fid oi lb) ∧
      alookup fid ((network_olds net).zip
        (List.range' s.nextId (network_olds net).length)) = some out ∧
      process_network (network_olds net)
        ((network_olds net).zip (List.range' s.nextId (network_olds net).length))
        output_node.posX ind y (network_olds net)
        (net.nodes, { s with nextId := s.nextId + (network_olds net).length }) =
        some (netm2, s2) := by
  unfold update_layer_network at h
  dsimp only [] at h
  split at h
  · cases h
  · rename_i out0 ho
    split at h
    · cases h
    · rename_i output_node ho2
      split at h
      · cases h
      · cases h
      · rename_i fid oi lb he
        split at h
        · cases h
        · rename_i outv hfid
          split at h
          · cases h
          · rename_i netm2 s3 hpn
            injection h with h
            injection h with h hout
            subst h
            subst hout
            exact ⟨out0, output_node, fid, oi, lb, netm2, ho, ho2, he, hfid, hpn⟩

theorem transform_fixup_posX (n : LNode) : (transform_fixup n).posX = n.posX := by
  unfold transform_fixup
  split <;> rfl

theorem transform_fixup_name (n : LNode) : (transform_fixup n).name = n.name := by
  unfold transform_fixup
  split <;> rfl

theorem cull_rename_posX (sh i y : Int) (sid : Nat) (n : LNode) :
    (cull_rename sh i y sid n).posX = n.posX := by
  unfold cull_rename shape_duplicate
  dsimp only []
  omega

/-- Common position outcome of the per-node loop: whichever branch an
emitted node went through, its final X is the original X shifted left
by the output-node X plus the indentation, and its final Y is the y of
the call. -/
theorem emitted_node_position {shift indent y : Int} {n0 : LNode} {ins2 : List NodeInput}
    {node4 : LNode}
    (hbr : (node4 = finalize_node shift indent y (transform_fixup { n0 with inputs := ins2 })) ∨
      ((transform_fixup { n0 with inputs := ins2 }).name = "Shape" ∧
       ∃ shapeId, node4 = finalize_node shift indent y
         (cull_rename shift indent y shapeId (transform_fixup { n0 with inputs := ins2 })))) :
    node4.posX = n0.posX - (shift + indent) ∧ node4.posY = y := by
  rcases hbr with rfl | ⟨_, sid, rfl⟩
  · constructor
    · show (transform_fixup { n0 with inputs := ins2 }).posX - (shift + indent) = _
      rw [transform_fixup_posX]
    · rfl
  · constructor
    · show (cull_rename shift indent y sid (transform_fixup { n0 with inputs := ins2 })).posX
          - (shift + indent) = _
      rw [cull_rename_posX, transform_fixup_posX]
    · rfl

/-- Every successful update_layer call establishes the per-call facts:
key monotonicity, emission of the wrapper at layer_node_id, generator
monotonicity, the pending-reference transfer and the id bound. -/
theorem update_layer_post :
    ∀ (fuel : Nat) (data : LayerData) (ind : Int) (lid : Nat) (nid : Option Nat) (s s' : MState),
      update_layer fuel data ind lid nid s = some s' → LayerPost ind lid nid s s' := by
  intro fuel
  induction fuel with
  | zero =>
    intro data ind lid nid s s' h
    cases h
  | succ f ih =>
    intro data ind lid nid s s' h
    have ihp : ∀ l ind2 lid2 nid2 t t', update_layer f l ind2 lid2 nid2 t = some t' →
        LayerPost ind2 lid2 nid2 t t' := fun l a b c d e hh => ih l a b c d e hh
    rw [update_layer] at h
    cases hco : update_core_go (update_layer f) data ind (Int.ofNat s.nextY)
        { s with nextY := s.nextY + 3 } with
    | none => rw [hco] at h; cases h
    | some p =>
      rw [hco] at h
      obtain ⟨s1, output⟩ := p
      dsimp only [] at h
      split at h
      · injection h with h
        subst h
        have cp := update_core_go_post ihp hco
        refine ⟨?_, ?_, ?_, ?_, ?_, ?_, ?_⟩
        · intro k hk
          exact hasKey_ainsert_of _ _ _ _ (cp.keys_mono k hk)
        · exact hasKey_ainsert_self _ _ _
        · exact cp.id_mono
        · exact Nat.lt_of_lt_of_le (show s.nextY < s.nextY + 3 by omega) cp.y_mono
        · intro P hR
          have hcore := cp.refs (fun r => P r ∨ r = lid) (by
            refine RefsP_mono hR ?_
            rintro r (hk | hp | hl)
            · exact Or.inl hk
            · exact Or.inr (Or.inl hp)
            · exact Or.inr (Or.inr hl))
          intro k n hkn r hr
          dsimp only [] at hkn
          rw [alookup_ainsert] at hkn
          by_cases hkl : k = lid
          · rw [if_pos hkl] at hkn
            injection hkn with hkn
            subst hkn
            rcases node_refs_layer_wrapper hr with ⟨j, hj, hrj⟩ | ⟨j, hj, hrj⟩
            · refine Or.inl ?_
              rw [hrj]
              exact hasKey_ainsert_of _ _ _ _ (cp.out_emitted j hj)
            · exact Or.inr (Or.inr ⟨j, hj, hrj⟩)
          · rw [if_neg hkl] at hkn
            rcases hcore k n hkn r hr with hk1 | hp | rfl
            · exact Or.inl (hasKey_ainsert_of _ _ _ _ hk1)
            · exact Or.inr (Or.inl hp)
            · exact Or.inl (hasKey_ainsert_self _ _ _)
        · intro hK hlid k hk
          dsimp only [] at hk ⊢
          rw [hasKey_ainsert] at hk
          rcases hk with rfl | hk
          · exact Nat.lt_of_lt_of_le hlid cp.id_mono
          · exact cp.lt_inv hK k hk
        · exact ⟨output, alookup_ainsert_self _ _ _⟩
      · cases h

theorem transform_fixup_skip (n : LNode) :
    (transform_fixup n).skip_deduplication = n.skip_deduplication := by
  unfold transform_fixup
  split <;> rfl

theorem transform_fixup_wsh (n : LNode) :
    (transform_fixup n).world_state_hash = n.world_state_hash := by
  unfold transform_fixup
  split <;> rfl

theorem transform_fixup_path (n : LNode) : (transform_fixup n).path = n.path := by
  unfold transform_fixup
  split <;> rfl

theorem transform_fixup_inputs (n : LNode) : (transform_fixup n).inputs = n.inputs := by
  unfold transform_fixup
  split <;> rfl

theorem transform_fixup_hpo (n : LNode) :
    (transform_fixup n).has_primary_output = n.has_primary_output := by
  unfold transform_fixup
  split <;> rfl

/-- Claim C3, corrected.  The horizontal shift applied to the emitted
nodes of a Layer network is the X position of the declared output node
ITSELF (upgrade.py line 41 reads output_node, the node the outputs
entry points at), not of the node feeding that output; every node
emitted under a renumbered id ends at original X minus (that output
node X plus the indentation), with Y set to the y of the call.  With
the output node at X = 100 and indent 0 this gives original X minus
100. -/
theorem horizontal_shift_uses_output_node_position
    {net : LNetwork} {ind y : Int} {s s2 : MState} {out : Nat}
    (h : update_layer_network net ind y s = some (s2, out))
    (hnd : (network_olds net).Nodup) :
    ∃ out0 output_node,
      net.outputs.head? = some out0 ∧
      alookup out0.node_id net.nodes = some output_node ∧
      ∀ o ∈ network_olds net, ∃ n0 nn node4,
        alookup o net.nodes = some n0 ∧
        alookup o ((network_olds net).zip
          (List.range' s.nextId (network_olds net).length)) = some nn ∧
        alookup nn s2.new_nodes = some node4 ∧
        node4.posX = n0.posX - (output_node.posX + ind) ∧
        node4.posY = y := by
  obtain ⟨out0, onode, fid, oi, lb, netm2, ho, ho2, he, hfid, hpn⟩ := update_layer_network_spec h
  have hlt : ∀ v, NIVal ((network_olds net).zip
      (List.range' s.nextId (network_olds net).length)) v →
      v < ({ s with nextId := s.nextId + (network_olds net).length } : MState).nextId := by
    intro v hv
    obtain ⟨o, hov⟩ := hv
    have hmem := (alookup_zip_mem _ _ hov).1
    rw [List.mem_range'_1] at hmem
    show v < s.nextId + (network_olds net).length
    omega
  have hinj : ∀ o o2 v,
      alookup o ((network_olds net).zip
        (List.range' s.nextId (network_olds net).length)) = some v →
      alookup o2 ((network_olds net).zip
        (List.range' s.nextId (network_olds net).length)) = some v → o = o2 :=
    fun o o2 v h1 h2 => alookup_zip_inj hnd (List.nodup_range' _ _) h1 h2
  have hem := process_network_emits hpn hnd hlt hinj
  refine ⟨out0, onode, ho, ho2, ?_⟩
  intro o hoo
  obtain ⟨n0, ins2, nn, hn0, hins, hnn, hbr⟩ := hem o hoo
  rcases hbr with hA | ⟨hsh, sid, _, _, _, hcull⟩
  · exact ⟨n0, nn, _, hn0, hnn, hA,
      (emitted_node_position (Or.inl rfl)).1, (emitted_node_position (Or.inl rfl)).2⟩
  · exact ⟨n0, nn, _, hn0, hnn, hcull,
      (emitted_node_position (Or.inr ⟨hsh, sid, rfl⟩)).1,
      (emitted_node_position (Or.inr ⟨hsh, sid, rfl⟩)).2⟩

/-- Network refuting claim C3 as stated: the node feeding the output
sits at X = 100, but the declared output node itself sits at X = 5. -/
def c3_network : LNetwork :=
  { nodes := [(10, rect_node 100), (1, out_node 5 10)], outputs := [⟨1, 0⟩] }

/-- Counterexample to claim C3 as stated: in c3_network the feeding
node sits at X = 100 and indent is 0, yet the emitted node ends at
X = 95 (original 100 minus the output node X 5), not at 100 - 100 = 0
as the claim predicts. -/
theorem layer_shift_counterexample :
    ((update_layer_network c3_network 0 7
        { nextId := 43, nextY := 10, new_nodes := [] }).map
      (fun p => (alookup 43 p.1.new_nodes).map LNode.posX)) = some (some 95) ∧
    (95 : Int) ≠ 100 - 100 := ⟨rfl, by decide⟩

/-- Network witnessing the amended claim C3: output node at X = 100. -/
def c3w_network : LNetwork :=
  { nodes := [(10, rect_node 30), (1, out_node 100 10)], outputs := [⟨1, 0⟩] }

/-- Witness for the amended claim C3 at a concrete network whose output
node sits at X = 100 with indent 0: the emitted node ends at original X
minus 100. -/
theorem horizontal_shift_witness :
    ∃ out0 output_node,
      c3w_network.outputs.head? = some out0 ∧
      alookup out0.node_id c3w_network.nodes = some output_node ∧
      ∀ o ∈ network_olds c3w_network, ∃ n0 nn node4,
        alookup o c3w_network.nodes = some n0 ∧
        alookup o ((network_olds c3w_network).zip
          (List.range' (43 : Nat) (network_olds c3w_network).length)) = some nn ∧
        alookup nn (((update_layer_network c3w_network 0 7
            { nextId := 43, nextY := 10, new_nodes := [] }).getD
              ({ nextId := 0, nextY := 0, new_nodes := [] }, 0)).1).new_nodes = some node4 ∧
        node4.posX = n0.posX - (output_node.posX + 0) ∧
        node4.posY = 7 :=
  @horizontal_shift_uses_output_node_position c3w_network 0 7
    { nextId := 43, nextY := 10, new_nodes := [] }
    (((update_layer_network c3w_network 0 7
        { nextId := 43, nextY := 10, new_nodes := [] }).getD
          ({ nextId := 0, nextY := 0, new_nodes := [] }, 0)).1)
    (((update_layer_network c3w_network 0 7
        { nextId := 43, nextY := 10, new_nodes := [] }).getD
          ({ nextId := 0, nextY := 0, new_nodes := [] }, 0)).2)
    (by rfl) (by decide)

/-- Claim C9, confirmed.  Every node named Transform gets exactly its
implementation and manual_composition overwritten by the fixup of
upgrade.py lines 49 to 53, on top of the unconditional input
renumbering and repositioning applied to every surviving node, and
every emitted node carries its skip_deduplication, world_state_hash
and path fields through unchanged. -/
theorem transform_overwrite_and_bookkeeping
    {net : LNetwork} {ind y : Int} {s s2 : MState} {out : Nat}
    (h : update_layer_network net ind y s = some (s2, out))
    (hnd : (network_olds net).Nodup) :
    ∃ out0 output_node,
      net.outputs.head? = some out0 ∧
      alookup out0.node_id net.nodes = some output_node ∧
      ∀ o ∈ network_olds net, ∃ n0 ins2 nn node4,
        alookup o net.nodes = some n0 ∧
        renumber_inputs ((network_olds net).zip
          (List.range' s.nextId (network_olds net).length)) n0.inputs = some ins2 ∧
        alookup o ((network_olds net).zip
          (List.range' s.nextId (network_olds net).length)) = some nn ∧
        alookup nn s2.new_nodes = some node4 ∧
        node4.skip_deduplication = n0.skip_deduplication ∧
        node4.world_state_hash = n0.world_state_hash ∧
        node4.path = n0.path ∧
        (n0.name = "Transform" →
          node4 = { n0 with
                      inputs := ins2,
                      implementation := Impl.unresolved
                        "graphene_core::transform::TransformNode<_, _, _, _, _, _>",
                      manual_composition := some footprint_type,
                      posX := n0.posX - (output_node.posX + ind),
                      posY := y }) := by
  obtain ⟨out0, onode, fid, oi, lb, netm2, ho, ho2, he, hfid, hpn⟩ := update_layer_network_spec h
  have hlt : ∀ v, NIVal ((network_olds net).zip
      (List.range' s.nextId (network_olds net).length)) v →
      v < ({ s with nextId := s.nextId + (network_olds net).length } : MState).nextId := by
    intro v hv
    obtain ⟨o, hov⟩ := hv
    have hmem := (alookup_zip_mem _ _ hov).1
    rw [List.mem_range'_1] at hmem
    show v < s.nextId + (network_olds net).length
    omega
  have hinj : ∀ o o2 v,
      alookup o ((network_olds net).zip
        (List.range' s.nextId (network_olds net).length)) = some v →
      alookup o2 ((network_olds net).zip
        (List.range' s.nextId (network_olds net).length)) = some v → o = o2 :=
    fun o o2 v h1 h2 => alookup_zip_inj hnd (List.nodup_range' _ _) h1 h2
  have hem := process_network_emits hpn hnd hlt hinj
  refine ⟨out0, onode, ho, ho2, ?_⟩
  intro o hoo
  obtain ⟨n0, ins2, nn, hn0, hins, hnn, hbr⟩ := hem o hoo
  rcases hbr with hA | ⟨hsh, sid, _, _, _, hcull⟩
  · refine ⟨n0, ins2, nn, _, hn0, hins, hnn, hA, ?_, ?_, ?_, ?_⟩
    · show (transform_fixup { n0 with inputs := ins2 }).skip_deduplication = _
      rw [transform_fixup_skip]
    · show (transform_fixup { n0 with inputs := ins2 }).world_state_hash = _
      rw [transform_fixup_wsh]
    · show (transform_fixup { n0 with inputs := ins2 }).path = _
      rw [transform_fixup_path]
    · intro hT
      show finalize_node onode.posX ind y (transform_fixup { n0 with inputs := ins2 }) = _
      unfold transform_fixup finalize_node
      rw [if_pos (show ({ n0 with inputs := ins2 } : LNode).name = "Transform" from hT)]
  · refine ⟨n0, ins2, nn, _, hn0, hins, hnn, hcull, ?_, ?_, ?_, ?_⟩
    · show (transform_fixup { n0 with inputs := ins2 }).skip_deduplication = _
      rw [transform_fixup_skip]
    · show (transform_fixup { n0 with inputs := ins2 }).world_state_hash = _
      rw [transform_fixup_wsh]
    · show (transform_fixup { n0 with inputs := ins2 }).path = _
      rw [transform_fixup_path]
    · intro hT
      have hTn : (transform_fixup { n0 with inputs := ins2 }).name = "Transform" := by
        rw [transform_fixup_name]
        exact hT
      rw [hTn] at hsh
      exact absurd hsh (by decide)

/-- Network witnessing claim C9: a Transform node and a Rectangle node,
the Transform feeding the declared output. -/
def c9_network : LNetwork :=
  { nodes := [(10, rect_node 30), (11, legacy_transform_node 50), (1, out_node 5 11)],
    outputs := [⟨1, 0⟩] }

/-- Witness for claim C9 at a concrete network containing a Transform
node. -/
theorem transform_overwrite_witness :
    ∃ out0 output_node,
      c9_network.outputs.head? = some out0 ∧
      alookup out0.node_id c9_network.nodes = some output_node ∧
      ∀ o ∈ network_olds c9_network, ∃ n0 ins2 nn node4,
        alookup o c9_network.nodes = some n0 ∧
        renumber_inputs ((network_olds c9_network).zip
          (List.range' (43 : Nat) (network_olds c9_network).length)) n0.inputs = some ins2 ∧
        alookup o ((network_olds c9_network).zip
          (List.range' (43 : Nat) (network_olds c9_network).length)) = some nn ∧
        alookup nn (((update_layer_network c9_network 0 7
            { nextId := 43, nextY := 10, new_nodes := [] }).getD
              ({ nextId := 0, nextY := 0, new_nodes := [] }, 0)).1).new_nodes = some node4 ∧
        node4.skip_deduplication = n0.skip_deduplication ∧
        node4.world_state_hash = n0.world_state_hash ∧
        node4.path = n0.path ∧
        (n0.name = "Transform" →
          node4 = { n0 with
                      inputs := ins2,
                      implementation := Impl.unresolved
                        "graphene_core::transform::TransformNode<_, _, _, _, _, _>",
                      manual_composition := some footprint_type,
                      posX := n0.posX - (output_node.posX + 0),
                      posY := 7 }) :=
  @transform_overwrite_and_bookkeeping c9_network 0 7
    { nextId := 43, nextY := 10, new_nodes := [] }
    (((update_layer_network c9_network 0 7
        { nextId := 43, nextY := 10, new_nodes := [] }).getD
          ({ nextId := 0, nextY := 0, new_nodes := [] }, 0)).1)
    (((update_layer_network c9_network 0 7
        { nextId := 43, nextY := 10, new_nodes := [] }).getD
          ({ nextId := 0, nextY := 0, new_nodes := [] }, 0)).2)
    (by rfl) (by decide)

/-- Minimal legacy network: a single non-Shape node feeding directly
into the Output node. -/
def minimal_network : LNetwork :=
  { nodes := [(10, rect_node 100), (1, out_node 8 10)], outputs := [⟨1, 0⟩] }

/-- Minimal legacy document: one Folder containing one Layer whose
network is minimal_network. -/
def minimal_document : LayerData :=
  LayerData.folder [LayerData.layer minimal_network]

/-- Claim C4, confirmed.  First, on any legacy document for which the
migration completes without error, every node id appearing in a Node
input reference of any node of the final emitted mapping is a key of
that mapping.  Second, the output reference computed by the branch body
of any update_layer call is always either None or already a key of the
mapping at the moment the assert of upgrade.py line 77 runs, so the
assert holds whenever it is reached. -/
theorem migration_no_dangling_refs :
    (∀ (data : LayerData) (m : List (Nat × LNode)), migrate_nodes data = some m →
      ∀ k n, alookup k m = some n → ∀ r ∈ node_refs n, hasKey m r) ∧
    (∀ (f : Nat) (data : LayerData) (ind y : Int) (s0 s1 : MState) (output : Option Nat),
      update_core_go (update_layer f) data ind y s0 = some (s1, output) →
      assert_output output s1.new_nodes = true) := by
  constructor
  · intro data m hm k n hk r hr
    unfold migrate_nodes at hm
    dsimp only [] at hm
    split at hm
    · cases hm
    · rename_i s2 hrun
      injection hm with hm
      subst hm
      have lp := update_layer_post _ _ _ _ _ _ _ hrun
      have hrefs := lp.refs (fun _ => False) (by
        intro k2 n2 hk2
        simp [alookup] at hk2)
      rw [alookup_ainsert] at hk
      by_cases hk0 : k = 0
      · rw [if_pos hk0] at hk
        injection hk with hk
        subst hk
        have hr42 : r = 42 := by
          have he : node_refs output_root_node = [42] := by rfl
          rw [he] at hr
          exact List.mem_singleton.mp hr
        subst hr42
        exact hasKey_ainsert_of _ _ _ _ lp.lid_emitted
      · rw [if_neg hk0] at hk
        rcases hrefs k n hk r hr with hkey | hfalse | ⟨j, hj, _⟩
        · exact hasKey_ainsert_of _ _ _ _ hkey
        · exact hfalse.elim
        · cases hj
  · intro f data ind y s0 s1 output hco
    have cp := update_core_go_post (update_layer_post f) hco
    cases output with
    | none => rfl
    | some j => exact cp.out_emitted j rfl

/-- Witness for claim C4: on the minimal document the root Output node
at key 0 references node 42, and 42 is indeed a key of the final
mapping. -/
theorem migration_no_dangling_refs_witness :
    hasKey ((migrate_nodes minimal_document).getD []) 42 :=
  migration_no_dangling_refs.1 minimal_document ((migrate_nodes minimal_document).getD [])
    (by rfl) 0 output_root_node (by rfl) 42 (by decide)

/-- Claim C6, confirmed.  Because migrate reassigns new_id, y_position
and new_nodes before doing anything (upgrade.py lines 342 to 345), a
second run in the same process on the same input produces exactly the
same serialized document as the first, and in general the produced
document does not depend on the module state left behind by earlier
runs. -/
theorem migrate_rerun_identical :
    ∀ (data : LayerData) (g : MState),
      (migrate_run data (migrate_run data g).2).1 = (migrate_run data g).1 ∧
      ∀ g2 : MState, (migrate_run data g).1 = (migrate_run data g2).1 :=
  fun _ _ => ⟨rfl, fun _ => rfl⟩

/-- Claim C10, confirmed.  The build patcher leaves a manifest that
already has a dependencies key untouched, otherwise appends exactly the
one graphite-frontend entry, and is therefore idempotent. -/
theorem patch_json_idempotent :
    (∀ m : List (String × J), hasKey m "dependencies" → patch_json m = m) ∧
    (∀ m : List (String × J), ¬ hasKey m "dependencies" →
      patch_json m = m ++ [("dependencies", frontend_dependency)]) ∧
    (∀ m : List (String × J), patch_json (patch_json m) = patch_json m) := by
  refine ⟨?_, ?_, ?_⟩
  · intro m hm
    unfold hasKey at hm
    unfold patch_json
    rw [if_pos hm]
  · intro m hm
    unfold hasKey at hm
    unfold patch_json
    rw [if_neg hm]
  · intro m
    by_cases hm : (alookup "dependencies" m).isSome = true
    · unfold patch_json
      rw [if_pos hm, if_pos hm]
    · have hstep : patch_json m = m ++ [("dependencies", frontend_dependency)] := by
        unfold patch_json
        rw [if_neg hm]
      rw [hstep]
      have hdep : (alookup "dependencies" (m ++ [("dependencies", frontend_dependency)])).isSome = true := by
        rw [alookup_append]
        cases hv : alookup "dependencies" m with
        | none => simp [alookup]
        | some v => exact absurd (by simp [hv]) hm
      unfold patch_json
      rw [if_pos hdep]

/-- Witness for claim C10: patching an empty manifest adds the one
dependencies entry, and a manifest with the key present is returned
unchanged. -/
theorem patch_json_idempotent_witness :
    patch_json [] = [] ++ [("dependencies", frontend_dependency)] ∧
    patch_json [("dependencies", J.null)] = [("dependencies", J.null)] :=
  ⟨patch_json_idempotent.2.1 [] (by decide),
   patch_json_idempotent.1 [("dependencies", J.null)] (by decide)⟩

/-- Claim C8, confirmed.  The id generator yields 42, 43, 44, ... and
the vertical-position generator yields 7, 10, 13, ...; both streams are
injective.  Whenever every key of the emitted mapping is below the next
id to be drawn, the next draw cannot collide with an existing key, and
every update_layer call preserves that bound (so freshly drawn ids
never collide with emitted ones).  Each call draws one y at entry,
strictly advancing the y generator, and the one wrapper it emits at
layer_node_id carries exactly that y as its Y coordinate, so wrappers
of different calls receive distinct Y values. -/
theorem generator_allocation_facts :
    (∀ n, gen_id n = 42 + n) ∧
    (∀ n, gen_y n = 7 + 3 * n) ∧
    (∀ m k, gen_id m = gen_id k → m = k) ∧
    (∀ m k, gen_y m = gen_y k → m = k) ∧
    (∀ s : MState, (∀ k, hasKey s.new_nodes k → k < s.nextId) →
      ¬ hasKey s.new_nodes s.nextId) ∧
    (∀ (fuel : Nat) (data : LayerData) (ind : Int) (lid : Nat) (nid : Option Nat)
       (s s' : MState),
      update_layer fuel data ind lid nid s = some s' →
      (∀ k, hasKey s.new_nodes k → k < s.nextId) → lid < s.nextId →
      ∀ k, hasKey s'.new_nodes k → k < s'.nextId) ∧
    (∀ (fuel : Nat) (data : LayerData) (ind : Int) (lid : Nat) (nid : Option Nat)
       (s s' : MState),
      update_layer fuel data ind lid nid s = some s' →
      s.nextY < s'.nextY ∧
      ∃ o, alookup lid s'.new_nodes = some (layer_wrapper o nid ind (Int.ofNat s.nextY)) ∧
        (layer_wrapper o nid ind (Int.ofNat s.nextY)).posY = Int.ofNat s.nextY) := by
  refine ⟨gen_id_eq, gen_y_eq, ?_, ?_, ?_, ?_, ?_⟩
  · intro m k h
    rw [gen_id_eq, gen_id_eq] at h
    omega
  · intro m k h
    rw [gen_y_eq, gen_y_eq] at h
    omega
  · intro s hb hk
    exact Nat.lt_irrefl _ (hb _ hk)
  · intro fuel data ind lid nid s s' h hb hlid
    exact (update_layer_post fuel data ind lid nid s s' h).lt_inv hb hlid
  · intro fuel data ind lid nid s s' h
    have lp := update_layer_post fuel data ind lid nid s s' h
    obtain ⟨o, ho⟩ := lp.wrapper
    exact ⟨lp.y_step, o, ho, rfl⟩

/-- Witness for claim C8 on a concrete run over the minimal document:
the generator streams at index 3, the preserved freshness bound and the
strict advance of the y generator. -/
theorem generator_allocation_witness :
    gen_id 3 = 45 ∧ gen_y 3 = 16 ∧
    (∀ k, hasKey (((update_layer 2 minimal_document 0 42 none
        { nextId := 43, nextY := 7, new_nodes := [] }).getD
          { nextId := 0, nextY := 0, new_nodes := [] }).new_nodes) k →
      k < ((update_layer 2 minimal_document 0 42 none
        { nextId := 43, nextY := 7, new_nodes := [] }).getD
          { nextId := 0, nextY := 0, new_nodes := [] }).nextId) ∧
    7 < ((update_layer 2 minimal_document 0 42 none
        { nextId := 43, nextY := 7, new_nodes := [] }).getD
          { nextId := 0, nextY := 0, new_nodes := [] }).nextY := by
  refine ⟨(generator_allocation_facts.1 3).trans (by decide),
          (generator_allocation_facts.2.1 3).trans (by decide), ?_, ?_⟩
  · exact generator_allocation_facts.2.2.2.2.2.1 2 minimal_document 0 42 none
      { nextId := 43, nextY := 7, new_nodes := [] } _ (by rfl)
      (fun k hk => absurd hk (by simp [hasKey, alookup])) (by decide)
  · exact (generator_allocation_facts.2.2.2.2.2.2 2 minimal_document 0 42 none
      { nextId := 43, nextY := 7, new_nodes := [] } _ (by rfl)).1

/-- Per-child schedule of a Folder expansion, as the spec words it: the
list of (reserved id, next reserved id) pairs the reversed children are
zipped against, the last carrying none. -/
def child_schedule : List Nat → List (Nat × Option Nat)
  | [] => []
  | [a] => [(a, none)]
  | a :: b :: r => (a, some b) :: child_schedule (b :: r)

/-- Sequential run of update_layer over an explicit child schedule. -/
def sched_run (go : LayerData → Int → Nat → Option Nat → MState → Option MState) :
    List (LayerData × Nat × Option Nat) → Int → MState → Option MState
  | [], _, s => some s
  | (l, lid, nid) :: rest, ind, s =>
    match go l ind lid nid s with
    | none => none
    | some s2 => sched_run go rest ind s2

theorem child_schedule_cons (a : Nat) (r : List Nat) :
    child_schedule (a :: r) = (a, r.head?) :: child_schedule r := by
  cases r with
  | nil => rfl
  | cons b t => rfl

theorem child_schedule_fst : ∀ ids : List Nat, (child_schedule ids).map Prod.fst = ids := by
  intro ids
  induction ids with
  | nil => rfl
  | cons a r ih =>
    rw [child_schedule_cons]
    simp [ih]

theorem child_schedule_snd : ∀ ids : List Nat, ids ≠ [] →
    (child_schedule ids).map Prod.snd = (ids.drop 1).map some ++ [none] := by
  intro ids
  induction ids with
  | nil => intro h; exact absurd rfl h
  | cons a r ih =>
    intro _
    rw [child_schedule_cons]
    cases r with
    | nil => rfl
    | cons b t =>
      simp only [List.map_cons, List.head?_cons, List.drop_one, List.tail_cons]
      rw [ih (by simp)]
      simp

/-- The child loop of the Folder branch is exactly a sequential run of
update_layer over the reversed children zipped with the schedule. -/
theorem update_children_eq_sched
    (go : LayerData → Int → Nat → Option Nat → MState → Option MState) :
    ∀ (ls : List LayerData) (ids : List Nat) (ind : Int) (s : MState),
      ls.length ≤ ids.length →
      update_children_go go ls ids ind s =
        sched_run go (ls.zip (child_schedule ids)) ind s := by
  intro ls
  induction ls with
  | nil => intro ids ind s _; rfl
  | cons l rest ih =>
    intro ids ind s hlen
    cases ids with
    | nil => simp at hlen
    | cons lid restIds =>
      rw [child_schedule_cons]
      show (match go l ind lid restIds.head? s with
            | none => none
            | some s2 => update_children_go go rest restIds ind s2) =
        sched_run go ((l, lid, restIds.head?) :: rest.zip (child_schedule restIds)) ind s
      unfold sched_run
      cases hg : go l ind lid restIds.head? s with
      | none => rfl
      | some s2 =>
        dsimp only []
        exact ih restIds ind s2 (by simpa using Nat.le_of_succ_le_succ hlen)

/-- Claim C2, confirmed.  A Folder with N children reserves the N fresh
ids 42.., one per child, before any recursion (the id generator is
advanced past them, plus the one extra value the terminating map step
consumes); the recursion is exactly a sequential run over the reversed
children zipped with the schedule pairing each child positionally with
its reserved id and the next reserved id; the schedule ids are distinct
and cover the reservation, its next-chain is the reservation shifted by
one terminating in none at the last processed child; and the output of
the Folder is the first reserved id. -/
theorem folder_child_scheduling
    (f : Nat) (layers : List LayerData) (ind y : Int) (s0 s1 : MState) (output : Option Nat)
    (h : update_core_go (update_layer f) (LayerData.folder layers) ind y s0 = some (s1, output)) :
    layers.length ≠ 0 ∧
    output = some s0.nextId ∧
    (List.range' s0.nextId layers.length).length = layers.length ∧
    (List.range' s0.nextId layers.length).Nodup ∧
    update_children_go (update_layer f) layers.reverse (List.range' s0.nextId layers.length)
        (ind + 5) { s0 with nextId := s0.nextId + layers.length + 1 } = some s1 ∧
    (child_schedule (List.range' s0.nextId layers.length)).map Prod.fst =
      List.range' s0.nextId layers.length ∧
    (child_schedule (List.range' s0.nextId layers.length)).map Prod.snd =
      ((List.range' s0.nextId layers.length).drop 1).map some ++ [none] ∧
    update_children_go (update_layer f) layers.reverse (List.range' s0.nextId layers.length)
        (ind + 5) { s0 with nextId := s0.nextId + layers.length + 1 } =
      sched_run (update_layer f)
        (layers.reverse.zip (child_schedule (List.range' s0.nextId layers.length)))
        (ind + 5) { s0 with nextId := s0.nextId + layers.length + 1 } := by
  unfold update_core_go at h
  dsimp only [] at h
  cases hc : update_children_go (update_layer f) layers.reverse
      (List.range' s0.nextId layers.length) (ind + 5)
      { s0 with nextId := s0.nextId + layers.length + 1 } with
  | none => rw [hc] at h; cases h
  | some s2 =>
    rw [hc] at h
    dsimp only [] at h
    cases hh : (List.range' s0.nextId layers.length).head? with
    | none => rw [hh] at h; cases h
    | some h0 =>
      rw [hh] at h
      dsimp only [] at h
      injection h with h
      injection h with h hout
      subst h
      subst hout
      have hN : layers.length ≠ 0 := by
        intro h0len
        rw [h0len] at hh
        cases hh
      have hh0 : h0 = s0.nextId := by
        cases hl : layers.length with
        | zero => exact absurd hl hN
        | succ m =>
          rw [hl] at hh
          rw [List.range'_succ] at hh
          exact (Option.some.inj hh).symm
      subst hh0
      refine ⟨hN, rfl, by simp, List.nodup_range' _ _, rfl, child_schedule_fst _,
        child_schedule_snd _ ?_, ?_⟩
      · intro hnil
        have : (List.range' s0.nextId layers.length).length = 0 := by rw [hnil]; rfl
        rw [List.length_range'] at this
        exact hN this
      · exact ((update_children_eq_sched (update_layer f) layers.reverse
            (List.range' s0.nextId layers.length) (ind + 5)
            { s0 with nextId := s0.nextId + layers.length + 1 }
            (by simp)).symm.trans hc).symm

/-- Witness for claim C2 on a concrete one-child Folder: the output is
the first reserved id 43 and the schedule chain is the single pair
(43, none). -/
theorem folder_child_scheduling_witness :
    ((update_core_go (update_layer 1) (LayerData.folder [LayerData.layer minimal_network])
        0 7 { nextId := 43, nextY := 10, new_nodes := [] }).getD
          ({ nextId := 0, nextY := 0, new_nodes := [] }, none)).2 = some 43 ∧
    (child_schedule (List.range' 43 1)).map Prod.snd = ([].map some ++ [none]) := by
  have h := folder_child_scheduling 1 [LayerData.layer minimal_network] 0 7
    { nextId := 43, nextY := 10, new_nodes := [] }
    ((update_core_go (update_layer 1) (LayerData.folder [LayerData.layer minimal_network])
        0 7 { nextId := 43, nextY := 10, new_nodes := [] }).getD
          ({ nextId := 0, nextY := 0, new_nodes := [] }, none)).1
    ((update_core_go (update_layer 1) (LayerData.folder [LayerData.layer minimal_network])
        0 7 { nextId := 43, nextY := 10, new_nodes := [] }).getD
          ({ nextId := 0, nextY := 0, new_nodes := [] }, none)).2
    (by rfl)
  exact ⟨h.2.1, h.2.2.2.2.2.2.1⟩

/-- Claim C5, confirmed.  Migrating the minimal legacy document (one
Folder holding one Layer whose network is one Rectangle feeding the
Output node) yields a mapping holding the synthesized root Output node
at key 0, Layer wrapper nodes at keys 42 (for the Folder) and 43 (for
the Layer), and the renumbered original Rectangle at key 45, with
every Node reference resolving inside the mapping. -/
theorem minimal_document_migration :
    ∃ m, migrate_nodes minimal_document = some m ∧
      m.map (fun p => (p.1, p.2.name)) =
        [(45, "Rectangle"), (43, "Layer"), (42, "Layer"), (0, "Output")] ∧
      alookup 0 m = some output_root_node ∧
      (alookup 43 m).map LNode.name = some "Layer" ∧
      (alookup 45 m).map LNode.name = some "Rectangle" ∧
      (alookup 45 m).map LNode.posX = some 87 ∧
      (∀ p ∈ m, ∀ r ∈ node_refs p.2, hasKey m r) := by
  refine ⟨(migrate_nodes minimal_document).getD [], by rfl, by rfl, by rfl, by rfl,
    by rfl, by rfl, ?_⟩
  decide

/-- Splitting lemma for the per-node loop: iterating an appended list
is iterating the first part and then the second. -/
theorem process_network_append {olds : List Nat} {new_ids : List (Nat × Nat)}
    {shift ind y : Int} :
    ∀ (l1 l2 : List Nat) (acc : List (Nat × LNode) × MState),
      process_network olds new_ids shift ind y (l1 ++ l2) acc =
        match process_network olds new_ids shift ind y l1 acc with
        | none => none
        | some acc2 => process_network olds new_ids shift ind y l2 acc2 := by
  intro l1
  induction l1 with
  | nil => intro l2 acc; rfl
  | cons o rest ih =>
    intro l2 acc
    show (match process_network_node olds new_ids shift ind y acc o with
          | none => none
          | some acc2 => process_network olds new_ids shift ind y (rest ++ l2) acc2) = _
    cases hstep : process_network_node olds new_ids shift ind y acc o with
    | none =>
      show none = (match (match process_network_node olds new_ids shift ind y acc o with
          | none => none
          | some acc2 => process_network olds new_ids shift ind y rest acc2) with
        | none => none
        | some acc2 => process_network olds new_ids shift ind y l2 acc2)
      rw [hstep]
    | some acc2 =>
      show process_network olds new_ids shift ind y (rest ++ l2) acc2 =
        (match (match process_network_node olds new_ids shift ind y acc o with
          | none => none
          | some acc3 => process_network olds new_ids shift ind y rest acc3) with
        | none => none
        | some acc3 => process_network olds new_ids shift ind y l2 acc3)
      rw [hstep]
      exact ih l2 acc2

/-- A true cull check finds a node named Cull among the scanned ids. -/
theorem cull_check_true {netm : List (Nat × LNode)} :
    ∀ {olds : List Nat}, cull_check netm olds = some true →
      ∃ o ∈ olds, ∃ n, alookup o netm = some n ∧ n.name = "Cull" := by
  intro olds
  induction olds with
  | nil => intro h; cases h
  | cons o rest ih =>
    intro h
    unfold cull_check at h
    cases ho : alookup o netm with
    | none => rw [ho] at h; cases h
    | some n =>
      rw [ho] at h
      dsimp only [] at h
      by_cases hn : n.name = "Cull"
      · exact ⟨o, List.mem_cons_self _ _, n, ho, hn⟩
      · rw [if_neg hn] at h
        obtain ⟨o2, ho2, n2, hl2, hn2⟩ := ih h
        exact ⟨o2, List.mem_cons_of_mem _ ho2, n2, hl2, hn2⟩

/-- A false cull check means every scanned id resolves to a node not
named Cull. -/
theorem cull_check_false {netm : List (Nat × LNode)} :
    ∀ {olds : List Nat}, cull_check netm olds = some false →
      ∀ o ∈ olds, ∃ n, alookup o netm = some n ∧ n.name ≠ "Cull" := by
  intro olds
  induction olds with
  | nil => intro _ o ho; exact absurd ho (List.not_mem_nil o)
  | cons o2 rest ih =>
    intro h o ho
    unfold cull_check at h
    cases ho2 : alookup o2 netm with
    | none => rw [ho2] at h; cases h
    | some n =>
      rw [ho2] at h
      dsimp only [] at h
      by_cases hn : n.name = "Cull"
      · rw [if_pos hn] at h
        cases h
      · rw [if_neg hn] at h
        rcases List.mem_cons.mp ho with rfl | ho
        · exact ⟨n, ho2, hn⟩
        · exact ih h o ho

theorem transform_fixup_id {n : LNode} (h : n.name ≠ "Transform") :
    transform_fixup n = n := by
  unfold transform_fixup
  rw [if_neg h]

theorem finalize_node_name (sh i y : Int) (n : LNode) :
    (finalize_node sh i y n).name = n.name := rfl

/-- Runs of the per-node loop over ids whose nodes are not named Shape
never fire the Cull insertion: names are preserved, no fresh id is
drawn, entries outside the iteration are untouched, and emitted keys
other than the renumbered ids of the iteration are untouched. -/
theorem process_network_nonshape {olds : List Nat} {new_ids : List (Nat × Nat)}
    {shift ind y : Int} :
    ∀ {iter : List Nat} {netm : List (Nat × LNode)} {s : MState}
      {netm2 : List (Nat × LNode)} {s2 : MState},
      process_network olds new_ids shift ind y iter (netm, s) = some (netm2, s2) →
      (∀ o ∈ iter, ∀ n, alookup o netm = some n → n.name ≠ "Shape") →
      (∀ k, (alookup k netm2).map LNode.name = (alookup k netm).map LNode.name) ∧
      s2.nextId = s.nextId ∧
      (∀ o, o ∉ iter → alookup o netm2 = alookup o netm) ∧
      (∀ v, (∀ o ∈ iter, ∀ nn, alookup o new_ids = some nn → nn ≠ v) →
        alookup v s2.new_nodes = alookup v s.new_nodes) := by
  intro iter
  induction iter with
  | nil =>
    intro netm s netm2 s2 h _
    unfold process_network at h
    injection h with h
    injection h with h1 h2
    subst h1
    subst h2
    exact ⟨fun k => rfl, rfl, fun o _ => rfl, fun v _ => rfl⟩
  | cons o rest ih =>
    intro netm s netm2 s2 h hns
    unfold process_network at h
    cases hstep : process_network_node olds new_ids shift ind y (netm, s) o with
    | none => rw [hstep] at h; cases h
    | some accA =>
      rw [hstep] at h
      dsimp only [] at h
      obtain ⟨netmA, sA⟩ := accA
      obtain ⟨n0, ins2, nn, hn0, hins, hnn, node3, s3, hnetA, hsA, hbr⟩ :=
        process_network_node_spec hstep
      have hname : n0.name ≠ "Shape" := hns o (List.mem_cons_self _ _) n0 hn0
      have hTname : (transform_fixup { n0 with inputs := ins2 }).name = n0.name :=
        transform_fixup_name _
      rcases hbr with ⟨hb3, hbs, _⟩ | ⟨hshp, _, _, _⟩
      · subst hb3
        subst hbs
        have hnode4name :
            (finalize_node shift ind y (transform_fixup { n0 with inputs := ins2 })).name
              = n0.name := by
          rw [finalize_node_name, hTname]
        have hnsA : ∀ o2 ∈ rest, ∀ n, alookup o2 netmA = some n → n.name ≠ "Shape" := by
          intro o2 ho2 n hn
          rw [hnetA] at hn
          rw [alookup_ainsert] at hn
          by_cases he : o2 = o
          · rw [if_pos he] at hn
            injection hn with hn
            subst hn
            rw [hnode4name]
            exact hname
          · rw [if_neg he] at hn
            exact hns o2 (List.mem_cons_of_mem _ ho2) n hn
        obtain ⟨ih_names, ih_id, ih_un, ih_pres⟩ := ih h hnsA
        refine ⟨?_, ?_, ?_, ?_⟩
        · intro k
          rw [ih_names k, hnetA, alookup_ainsert]
          by_cases he : k = o
          · rw [if_pos he, he, hn0]
            simp [hnode4name]
          · rw [if_neg he]
        · rw [ih_id]
          rw [hsA]
        · intro o2 ho2
          have h1 : o2 ∉ rest := fun hmem => ho2 (List.mem_cons_of_mem _ hmem)
          have h2 : o2 ≠ o := fun he => ho2 (he ▸ List.mem_cons_self _ _)
          rw [ih_un o2 h1, hnetA, alookup_ainsert, if_neg h2]
        · intro v hv
          rw [ih_pres v (fun o2 ho2 nn2 hnn2 => hv o2 (List.mem_cons_of_mem _ ho2) nn2 hnn2)]
          rw [hsA]
          dsimp only []
          rw [alookup_ainsert]
          exact if_neg (fun he => hv o (List.mem_cons_self _ _) nn hnn he.symm)
      · rw [hTname] at hshp
        exact absurd hshp hname

/-- Runs of the per-node loop while a node named Cull is present among
the scanned ids never fire the Cull insertion either: same conclusions
as for non-Shape runs. -/
theorem process_network_cull_present {olds : List Nat} {new_ids : List (Nat × Nat)}
    {shift ind y : Int} :
    ∀ {iter : List Nat} {netm : List (Nat × LNode)} {s : MState}
      {netm2 : List (Nat × LNode)} {s2 : MState},
      process_network olds new_ids shift ind y iter (netm, s) = some (netm2, s2) →
      (∃ oc, oc ∈ olds ∧ ∃ nc, alookup oc netm = some nc ∧ nc.name = "Cull") →
      (∀ k, (alookup k netm2).map LNode.name = (alookup k netm).map LNode.name) ∧
      s2.nextId = s.nextId ∧
      (∀ o, o ∉ iter → alookup o netm2 = alookup o netm) ∧
      (∀ v, (∀ o ∈ iter, ∀ nn, alookup o new_ids = some nn → nn ≠ v) →
        alookup v s2.new_nodes = alookup v s.new_nodes) := by
  intro iter
  induction iter with
  | nil =>
    intro netm s netm2 s2 h _
    unfold process_network at h
    injection h with h
    injection h with h1 h2
    subst h1
    subst h2
    exact ⟨fun k => rfl, rfl, fun o _ => rfl, fun v _ => rfl⟩
  | cons o rest ih =>
    intro netm s netm2 s2 h hcull
    unfold process_network at h
    cases hstep : process_network_node olds new_ids shift ind y (netm, s) o with
    | none => rw [hstep] at h; cases h
    | some accA =>
      rw [hstep] at h
      dsimp only [] at h
      obtain ⟨netmA, sA⟩ := accA
      obtain ⟨n0, ins2, nn, hn0, hins, hnn, node3, s3, hnetA, hsA, hbr⟩ :=
        process_network_node_spec hstep
      obtain ⟨oc, hoc, nc, hnc, hncname⟩ := hcull
      rcases hbr with ⟨hb3, hbs, _⟩ | ⟨_, hfalse, _, _⟩
      · subst hb3
        subst hbs
        have hnode4name :
            (finalize_node shift ind y (transform_fixup { n0 with inputs := ins2 })).name
              = n0.name := by
          rw [finalize_node_name, transform_fixup_name]
        have hcullA : ∃ oc2, oc2 ∈ olds ∧ ∃ nc2,
            alookup oc2 netmA = some nc2 ∧ nc2.name = "Cull" := by
          refine ⟨oc, hoc, ?_⟩
          rw [hnetA, alookup_ainsert]
          by_cases he : oc = o
          · rw [if_pos he]
            refine ⟨_, rfl, ?_⟩
            rw [hnode4name]
            rw [he] at hnc
            rw [hn0] at hnc
            injection hnc with hnc
            rw [hnc]
            exact hncname
          · rw [if_neg he]
            exact ⟨nc, hnc, hncname⟩
        obtain ⟨ih_names, ih_id, ih_un, ih_pres⟩ := ih h hcullA
        refine ⟨?_, ?_, ?_, ?_⟩
        · intro k
          rw [ih_names k, hnetA, alookup_ainsert]
          by_cases he : k = o
          · rw [if_pos he, he, hn0]
            simp [hnode4name]
          · rw [if_neg he]
        · rw [ih_id]
          rw [hsA]
        · intro o2 ho2
          have h1 : o2 ∉ rest := fun hmem => ho2 (List.mem_cons_of_mem _ hmem)
          have h2 : o2 ≠ o := fun he => ho2 (he ▸ List.mem_cons_self _ _)
          rw [ih_un o2 h1, hnetA, alookup_ainsert, if_neg h2]
        · intro v hv
          rw [ih_pres v (fun o2 ho2 nn2 hnn2 => hv o2 (List.mem_cons_of_mem _ ho2) nn2 hnn2)]
          rw [hsA]
          dsimp only []
          rw [alookup_ainsert]
          exact if_neg (fun he => hv o (List.mem_cons_self _ _) nn hnn he.symm)
      · obtain ⟨n, hn, hnname⟩ := cull_check_false hfalse oc hoc
        rw [hnc] at hn
        injection hn with hn
        rw [← hn] at hnname
        exact absurd hncname hnname

theorem cull_rename_name (sh i y : Int) (sid : Nat) (n : LNode) :
    (cull_rename sh i y sid n).name = "Cull" := rfl

/-- Auxiliary induction for the Cull-suppression argument: over any
suffix of the iteration drawn from the scanned set, starting from a
mapping with no Cull among the scanned ids, the loop draws at most one
fresh id, and draws exactly one (leaving a Cull in the mapping) as soon
as the suffix contains a Shape. -/
theorem cull_once_aux {olds : List Nat} {new_ids : List (Nat × Nat)} {shift ind y : Int} :
    ∀ {iter : List Nat} {netm : List (Nat × LNode)} {s : MState}
      {netm2 : List (Nat × LNode)} {s2 : MState},
      process_network olds new_ids shift ind y iter (netm, s) = some (netm2, s2) →
      (∀ o ∈ iter, o ∈ olds) →
      (∀ o ∈ olds, ∀ n, alookup o netm = some n → n.name ≠ "Cull") →
      s2.nextId ≤ s.nextId + 1 ∧
      ((∃ o ∈ iter, ∃ n, alookup o netm = some n ∧ n.name = "Shape") →
        s2.nextId = s.nextId + 1 ∧
        ∃ o ∈ olds, ∃ n, alookup o netm2 = some n ∧ n.name = "Cull") := by
  intro iter
  induction iter with
  | nil =>
    intro netm s netm2 s2 h _ _
    unfold process_network at h
    injection h with h
    injection h with h1 h2
    subst h1
    subst h2
    exact ⟨Nat.le_succ _, fun hex => absurd hex (by simp)⟩
  | cons o rest ih =>
    intro netm s netm2 s2 h hsub hnoc
    unfold process_network at h
    cases hstep : process_network_node olds new_ids shift ind y (netm, s) o with
    | none => rw [hstep] at h; cases h
    | some accA =>
      rw [hstep] at h
      dsimp only [] at h
      obtain ⟨netmA, sA⟩ := accA
      obtain ⟨n0, ins2, nn, hn0, hins, hnn, node3, s3, hnetA, hsA, hbr⟩ :=
        process_network_node_spec hstep
      rcases hbr with ⟨hb3, hbs, himp⟩ | ⟨hshp, _, hb3, hbs⟩
      · subst hb3
        subst hbs
        have hn0ns : n0.name ≠ "Shape" := by
          intro hsh
          have hcc := himp (by rw [transform_fixup_name]; exact hsh)
          obtain ⟨oc, hoc, ncn, hlc, hlcn⟩ := cull_check_true hcc
          exact hnoc oc hoc ncn hlc hlcn
        have hnode4name :
            (finalize_node shift ind y (transform_fixup { n0 with inputs := ins2 })).name
              = n0.name := by
          rw [finalize_node_name, transform_fixup_name]
        have hnocA : ∀ o2 ∈ olds, ∀ n, alookup o2 netmA = some n → n.name ≠ "Cull" := by
          intro o2 ho2 n hn
          rw [hnetA, alookup_ainsert] at hn
          by_cases he : o2 = o
          · rw [if_pos he] at hn
            injection hn with hn
            subst hn
            rw [hnode4name]
            exact hnoc o (hsub o (List.mem_cons_self _ _)) n0 (he ▸ hn0)
          · rw [if_neg he] at hn
            exact hnoc o2 ho2 n hn
        obtain ⟨ihb, ihe⟩ := ih h (fun o2 ho2 => hsub o2 (List.mem_cons_of_mem _ ho2)) hnocA
        rw [hsA] at ihb ihe
        refine ⟨ihb, ?_⟩
        rintro ⟨o2, ho2, nx, hlx, hlxn⟩
        rcases List.mem_cons.mp ho2 with rfl | ho2
        · rw [hn0] at hlx
          injection hlx with hlx
          subst hlx
          exact absurd hlxn hn0ns
        · have ho2ne : o2 ≠ o := by
            intro he
            rw [he, hn0] at hlx
            injection hlx with hlx
            subst hlx
            exact hn0ns hlxn
          refine ihe ⟨o2, ho2, nx, ?_, hlxn⟩
          rw [hnetA, alookup_ainsert, if_neg ho2ne]
          exact hlx
      · subst hb3
        subst hbs
        have hcullA : ∃ oc, oc ∈ olds ∧ ∃ nc, alookup oc netmA = some nc ∧ nc.name = "Cull" := by
          refine ⟨o, hsub o (List.mem_cons_self _ _),
            finalize_node shift ind y
              (cull_rename shift ind y s.nextId (transform_fixup { n0 with inputs := ins2 })),
            ?_, ?_⟩
          · rw [hnetA]
            exact alookup_ainsert_self _ _ _
          · rw [finalize_node_name, cull_rename_name]
        obtain ⟨cp_names, cp_id, _, _⟩ := process_network_cull_present h hcullA
        rw [hsA] at cp_id
        dsimp only [] at cp_id
        constructor
        · exact Nat.le_of_eq cp_id
        · intro _
          refine ⟨cp_id, ?_⟩
          obtain ⟨oc, hoc, nc, hlc, hlcn⟩ := hcullA
          have := cp_names oc
          rw [hlc] at this
          cases hx : alookup oc netm2 with
          | none => rw [hx] at this; cases this
          | some n2 =>
            rw [hx] at this
            injection this with this
            exact ⟨oc, hoc, n2, hx, by rw [this]; exact hlcn⟩

/-- Claim C7, confirmed.  In one pass over a network with no node named
Cull among the non-Output ids, the per-node loop draws at most one
fresh id; since the Cull insertion draws exactly one fresh id each time
it fires, at most one Shape undergoes the duplication and rename.  As
soon as some scanned id holds a Shape, exactly one insertion happens
and the shared network mapping afterwards holds a node named Cull,
which is what the in-place rename makes every later existing-Cull check
see. -/
theorem cull_insertion_at_most_once
    {olds : List Nat} {new_ids : List (Nat × Nat)} {shift ind y : Int}
    {netm netm2 : List (Nat × LNode)} {s s2 : MState}
    (hpn : process_network olds new_ids shift ind y olds (netm, s) = some (netm2, s2))
    (hnoc : ∀ o ∈ olds, ∀ n, alookup o netm = some n → n.name ≠ "Cull") :
    s2.nextId ≤ s.nextId + 1 ∧
    ((∃ o ∈ olds, ∃ n, alookup o netm = some n ∧ n.name = "Shape") →
      s2.nextId = s.nextId + 1 ∧
      ∃ o ∈ olds, ∃ n, alookup o netm2 = some n ∧ n.name = "Cull") :=
  cull_once_aux hpn (fun _ ho => ho) hnoc

/-- Two-Shape network used to witness claim C7. -/
def c7_network : LNetwork :=
  { nodes := [(10, shape_node 0), (11, shape_node 20), (1, out_node 100 10)],
    outputs := [⟨1, 0⟩] }

/-- Witness for claim C7 on a network with two Shape nodes and no Cull:
the loop draws exactly one fresh id. -/
theorem cull_insertion_witness :
    (((process_network [10, 11] [(10, 43), (11, 44)] 100 0 7 [10, 11]
        (c7_network.nodes, { nextId := 45, nextY := 7, new_nodes := [] })).getD
          ([], { nextId := 0, nextY := 0, new_nodes := [] })).2).nextId ≤ 45 + 1 ∧
    ((∃ o ∈ [10, 11], ∃ n, alookup o c7_network.nodes = some n ∧ n.name = "Shape") →
      (((process_network [10, 11] [(10, 43), (11, 44)] 100 0 7 [10, 11]
          (c7_network.nodes, { nextId := 45, nextY := 7, new_nodes := [] })).getD
            ([], { nextId := 0, nextY := 0, new_nodes := [] })).2).nextId = 45 + 1 ∧
      ∃ o ∈ [10, 11], ∃ n,
        alookup o (((process_network [10, 11] [(10, 43), (11, 44)] 100 0 7 [10, 11]
          (c7_network.nodes, { nextId := 45, nextY := 7, new_nodes := [] })).getD
            ([], { nextId := 0, nextY := 0, new_nodes := [] })).1) = some n ∧
        n.name = "Cull") :=
  @cull_insertion_at_most_once [10, 11] [(10, 43), (11, 44)] 100 0 7 c7_network.nodes
    (((process_network [10, 11] [(10, 43), (11, 44)] 100 0 7 [10, 11]
        (c7_network.nodes, { nextId := 45, nextY := 7, new_nodes := [] })).getD
          ([], { nextId := 0, nextY := 0, new_nodes := [] })).1)
    { nextId := 45, nextY := 7, new_nodes := [] }
    (((process_network [10, 11] [(10, 43), (11, 44)] 100 0 7 [10, 11]
        (c7_network.nodes, { nextId := 45, nextY := 7, new_nodes := [] })).getD
          ([], { nextId := 0, nextY := 0, new_nodes := [] })).2)
    (by rfl) (by decide)

theorem cull_dup_offset (sh i y : Int) (sid : Nat) (n : LNode) :
    (finalize_node sh i y (cull_rename sh i y sid n)).posX -
      (shape_duplicate sh i y n).posX = 8 := by
  unfold finalize_node cull_rename shape_duplicate
  dsimp only []
  omega

/-- Claim C1, corrected.  In a Layer network holding exactly one node
named Shape among the scanned non-Output ids and no node named Cull,
the loop emits exactly two nodes for it: the position-shifted duplicate
under the one fresh id drawn (the nextId at loop entry) and, under the
Shape's renumbered id, the original turned into a Cull node whose
single input references the duplicate.  The horizontal offset between
the two emitted nodes is 8 (the duplicate moves left by
shift_left + 8 + indent, where shift_left is the declared output node's
own X, but the Cull then moves back right by the same amount before the
final left shift by shift_left + indent that every node gets), NOT
shift_left + 8 + indent as the spec states.  When a Cull sibling
already exists among the scanned ids, no fresh id is drawn and every
Shape is emitted with name and implementation untouched, though its
inputs are still renumbered and its position still updated. -/
theorem shape_cull_insertion
    {net : LNetwork} {ind y : Int} {s s2 : MState} {out : Nat}
    (h : update_layer_network net ind y s = some (s2, out))
    (hnd : (network_olds net).Nodup) :
    ∃ out0 output_node,
      net.outputs.head? = some out0 ∧
      alookup out0.node_id net.nodes = some output_node ∧
      (∀ osh nsh,
        osh ∈ network_olds net →
        alookup osh net.nodes = some nsh →
        nsh.name = "Shape" →
        (∀ o ∈ network_olds net, o ≠ osh → ∀ n, alookup o net.nodes = some n →
          n.name ≠ "Shape") →
        (∀ o ∈ network_olds net, ∀ n, alookup o net.nodes = some n →
          n.name ≠ "Cull") →
        ∃ ins2 nn,
          renumber_inputs ((network_olds net).zip
            (List.range' s.nextId (network_olds net).length)) nsh.inputs = some ins2 ∧
          alookup osh ((network_olds net).zip
            (List.range' s.nextId (network_olds net).length)) = some nn ∧
          alookup (s.nextId + (network_olds net).length) s2.new_nodes =
            some (shape_duplicate output_node.posX ind y { nsh with inputs := ins2 }) ∧
          alookup nn s2.new_nodes =
            some (finalize_node output_node.posX ind y
              (cull_rename output_node.posX ind y
                (s.nextId + (network_olds net).length) { nsh with inputs := ins2 })) ∧
          (finalize_node output_node.posX ind y
            (cull_rename output_node.posX ind y
              (s.nextId + (network_olds net).length) { nsh with inputs := ins2 })).name
            = "Cull" ∧
          (finalize_node output_node.posX ind y
            (cull_rename output_node.posX ind y
              (s.nextId + (network_olds net).length) { nsh with inputs := ins2 })).inputs
            = [NodeInput.node (s.nextId + (network_olds net).length) 0 false] ∧
          (finalize_node output_node.posX ind y
            (cull_rename output_node.posX ind y
              (s.nextId + (network_olds net).length) { nsh with inputs := ins2 })).posX -
            (shape_duplicate output_node.posX ind y { nsh with inputs := ins2 }).posX = 8 ∧
          s2.nextId = s.nextId + (network_olds net).length + 1) ∧
      ((∃ oc ∈ network_olds net, ∃ nc, alookup oc net.nodes = some nc ∧ nc.name = "Cull") →
        s2.nextId = s.nextId + (network_olds net).length ∧
        ∀ o ∈ network_olds net, ∀ n0, alookup o net.nodes = some n0 →
          n0.name = "Shape" →
          ∃ ins2 nn,
            renumber_inputs ((network_olds net).zip
              (List.range' s.nextId (network_olds net).length)) n0.inputs = some ins2 ∧
            alookup o ((network_olds net).zip
              (List.range' s.nextId (network_olds net).length)) = some nn ∧
            alookup nn s2.new_nodes =
              some (finalize_node output_node.posX ind y { n0 with inputs := ins2 })) := by
  obtain ⟨out0, output_node, fid, oi, lb, netm2, ho, ho2, he, hfid, hpn⟩ :=
    update_layer_network_spec h
  refine ⟨out0, output_node, ho, ho2, ?_, ?_⟩
  · intro osh nsh hosh hlookup hname huniq hnoc
    obtain ⟨pre, post, hsplit⟩ := List.append_of_mem hosh
    have hnd2 : (pre ++ osh :: post).Nodup := by
      rw [← hsplit]
      exact hnd
    rw [List.nodup_append] at hnd2
    obtain ⟨hndpre, hndcons, hdisj⟩ := hnd2
    have hoshpost : osh ∉ post := (List.nodup_cons.mp hndcons).1
    have hoshpre : osh ∉ pre := fun hm => hdisj hm (List.mem_cons_self _ _)
    have hpn2 : process_network (network_olds net)
        ((network_olds net).zip (List.range' s.nextId (network_olds net).length))
        output_node.posX ind y (pre ++ osh :: post)
        (net.nodes, { s with nextId := s.nextId + (network_olds net).length }) =
        some (netm2, s2) := by
      rw [← hsplit]
      exact hpn
    rw [process_network_append] at hpn2
    cases hpre : process_network (network_olds net)
        ((network_olds net).zip (List.range' s.nextId (network_olds net).length))
        output_node.posX ind y pre
        (net.nodes, { s with nextId := s.nextId + (network_olds net).length }) with
    | none => rw [hpre] at hpn2; cases hpn2
    | some accP =>
      rw [hpre] at hpn2
      dsimp only [] at hpn2
      obtain ⟨netmP, sP⟩ := accP
      have hnsPre : ∀ o ∈ pre, ∀ n, alookup o net.nodes = some n → n.name ≠ "Shape" := by
        intro o hm n hn
        have hne : o ≠ osh := fun heq => hdisj hm (by rw [heq]; exact List.mem_cons_self _ _)
        exact huniq o (by rw [hsplit]; exact List.mem_append_left _ hm) hne n hn
      obtain ⟨pre_names, pre_id, pre_un, pre_pres⟩ := process_network_nonshape hpre hnsPre
      unfold process_network at hpn2
      cases hstep : process_network_node (network_olds net)
          ((network_olds net).zip (List.range' s.nextId (network_olds net).length))
          output_node.posX ind y (netmP, sP) osh with
      | none => rw [hstep] at hpn2; cases hpn2
      | some accB =>
        rw [hstep] at hpn2
        dsimp only [] at hpn2
        obtain ⟨netmB, sB⟩ := accB
        obtain ⟨n0, ins2, nn, hn0, hins, hnn, node3, s3, hnetB, hsB, hbr⟩ :=
          process_network_node_spec hstep
        rw [pre_un osh hoshpre, hlookup] at hn0
        injection hn0 with hn0
        rw [← hn0] at hins hbr
        have hTne : ({ nsh with inputs := ins2 } : LNode).name ≠ "Transform" := by
          show nsh.name ≠ "Transform"
          rw [hname]
          decide
        rw [transform_fixup_id hTne] at hbr
        rcases hbr with ⟨_, _, himp⟩ | ⟨_, _, hb3, hbs⟩
        · exfalso
          have hsh2 : ({ nsh with inputs := ins2 } : LNode).name = "Shape" := by
            show nsh.name = "Shape"
            exact hname
          obtain ⟨oc, hoc, ncn, hlc, hlcn⟩ := cull_check_true (himp hsh2)
          have hmap := pre_names oc
          rw [hlc] at hmap
          cases hx : alookup oc net.nodes with
          | none => rw [hx] at hmap; cases hmap
          | some n2 =>
            rw [hx] at hmap
            injection hmap with hmap
            exact hnoc oc hoc n2 hx (by rw [← hmap]; exact hlcn)
        · subst hb3
          subst hbs
          have hsPid : sP.nextId = s.nextId + (network_olds net).length := pre_id
          rw [hsPid] at hsB hnetB
          have hnsPost : ∀ o ∈ post, ∀ n, alookup o netmB = some n → n.name ≠ "Shape" := by
            intro o hm n hn
            have hne : o ≠ osh := fun heq => hoshpost (heq ▸ hm)
            rw [hnetB, alookup_ainsert, if_neg hne] at hn
            have hmap := pre_names o
            rw [hn] at hmap
            cases hx : alookup o net.nodes with
            | none => rw [hx] at hmap; cases hmap
            | some n2 =>
              rw [hx] at hmap
              injection hmap with hmap
              have hmemo : o ∈ network_olds net := by
                rw [hsplit]
                exact List.mem_append_right _ (List.mem_cons_of_mem _ hm)
              have h2 : n2.name ≠ "Shape" := huniq o hmemo hne n2 hx
              rw [hmap]
              exact h2
          obtain ⟨post_names, post_id, post_un, post_pres⟩ :=
            process_network_nonshape hpn2 hnsPost
          have hvlt : ∀ o2 v, alookup o2 ((network_olds net).zip
              (List.range' s.nextId (network_olds net).length)) = some v →
              v < s.nextId + (network_olds net).length := by
            intro o2 v hv
            have hmem := (alookup_zip_mem _ _ hv).1
            rw [List.mem_range'_1] at hmem
            omega
          have hnn_lt : nn < s.nextId + (network_olds net).length := hvlt osh nn hnn
          have hdup_pres : alookup (s.nextId + (network_olds net).length) s2.new_nodes =
              alookup (s.nextId + (network_olds net).length) sB.new_nodes := by
            apply post_pres
            intro o2 _ nn2 hnn2 heq
            have := hvlt o2 nn2 hnn2
            omega
          have hcull_pres : alookup nn s2.new_nodes = alookup nn sB.new_nodes := by
            apply post_pres
            intro o2 ho2 nn2 hnn2 heq
            rw [heq] at hnn2
            have heq2 : o2 = osh :=
              alookup_zip_inj hnd (List.nodup_range' _ _) hnn2 hnn
            exact hoshpost (heq2 ▸ ho2)
          have hsBnn : sB.new_nodes =
              ainsert nn (finalize_node output_node.posX ind y
                (cull_rename output_node.posX ind y
                  (s.nextId + (network_olds net).length) { nsh with inputs := ins2 }))
                (ainsert (s.nextId + (network_olds net).length)
                  (shape_duplicate output_node.posX ind y { nsh with inputs := ins2 })
                  sP.new_nodes) := by
            rw [hsB]
          have hneq : (s.nextId + (network_olds net).length) ≠ nn := by omega
          have hdup : alookup (s.nextId + (network_olds net).length) s2.new_nodes =
              some (shape_duplicate output_node.posX ind y { nsh with inputs := ins2 }) := by
            rw [hdup_pres, hsBnn, alookup_ainsert, if_neg hneq, alookup_ainsert_self]
          have hculln : alookup nn s2.new_nodes =
              some (finalize_node output_node.posX ind y
                (cull_rename output_node.posX ind y
                  (s.nextId + (network_olds net).length) { nsh with inputs := ins2 })) := by
            rw [hcull_pres, hsBnn, alookup_ainsert_self]
          have hid : s2.nextId = s.nextId + (network_olds net).length + 1 := by
            rw [post_id, hsB]
          exact ⟨ins2, nn, hins, hnn, hdup, hculln, rfl, rfl,
            cull_dup_offset _ _ _ _ _, hid⟩
  · intro hcull
    have hlt : ∀ v, NIVal ((network_olds net).zip
        (List.range' s.nextId (network_olds net).length)) v →
        v < ({ s with nextId := s.nextId + (network_olds net).length } : MState).nextId := by
      intro v hv
      obtain ⟨o, hov⟩ := hv
      have hmem := (alookup_zip_mem _ _ hov).1
      rw [List.mem_range'_1] at hmem
      show v < s.nextId + (network_olds net).length
      omega
    have hinj : ∀ o o2 v,
        alookup o ((network_olds net).zip
          (List.range' s.nextId (network_olds net).length)) = some v →
        alookup o2 ((network_olds net).zip
          (List.range' s.nextId (network_olds net).length)) = some v → o = o2 :=
      fun o o2 v h1 h2 => alookup_zip_inj hnd (List.nodup_range' _ _) h1 h2
    obtain ⟨_, cp_id, _, _⟩ := process_network_cull_present hpn hcull
    have cp_id2 : s2.nextId = s.nextId + (network_olds net).length := cp_id
    refine ⟨cp_id2, ?_⟩
    intro o hoo n0 hn0 hshape
    have hem := process_network_emits hpn hnd hlt hinj
    obtain ⟨n3, ins2, nn, hn3, hins, hnn, hbr⟩ := hem o hoo
    rw [hn0] at hn3
    injection hn3 with hn3
    rw [← hn3] at hins hbr
    have hTne : ({ n0 with inputs := ins2 } : LNode).name ≠ "Transform" := by
      show n0.name ≠ "Transform"
      rw [hshape]
      decide
    rw [transform_fixup_id hTne] at hbr
    rcases hbr with hA | ⟨_, sid, hge, hlt2, _, _⟩
    · exact ⟨ins2, nn, hins, hnn, hA⟩
    · exfalso
      have hlt3 : sid < ({ s with
          nextId := s.nextId + (network_olds net).length } : MState).nextId := by
        rw [← cp_id]
        exact hlt2
      exact absurd (Nat.lt_of_le_of_lt hge hlt3) (Nat.lt_irrefl _)

/-- Single-Shape network used for claim C1: the Shape sits at X = 0 and
the declared output node at X = 100, so shift_left is 100. -/
def c1_network : LNetwork :=
  { nodes := [(10, shape_node 0), (1, out_node 100 10)], outputs := [⟨1, 0⟩] }

/-- Counterexample to claim C1 as stated: in c1_network (one Shape, no
Cull, shift_left = 100, indent = 0) the emitted Cull lands at X = -100
and the duplicate at X = -108, so the horizontal offset between the two
emitted nodes is 8, not shift_left + 8 + indent = 108. -/
theorem shape_cull_offset_counterexample :
    ((update_layer_network c1_network 0 7
        { nextId := 43, nextY := 7, new_nodes := [] }).map
      (fun p => ((alookup 43 p.1.new_nodes).map LNode.posX,
                 (alookup 44 p.1.new_nodes).map LNode.posX,
                 (alookup 43 p.1.new_nodes).map LNode.name))) =
      some (some (-100), some (-108), some "Cull") ∧
    (-100 : Int) - (-108) = 8 ∧
    ((8 : Int) ≠ 100 + 8 + 0) := ⟨rfl, by decide, by decide⟩

/-- Witness for the amended claim C1 on c1_network with indent 0, y 7
and entry state nextId 43. -/
theorem shape_cull_witness :
    ∃ out0 output_node,
      c1_network.outputs.head? = some out0 ∧
      alookup out0.node_id c1_network.nodes = some output_node ∧
      (∀ osh nsh,
        osh ∈ network_olds c1_network →
        alookup osh c1_network.nodes = some nsh →
        nsh.name = "Shape" →
        (∀ o ∈ network_olds c1_network, o ≠ osh → ∀ n,
          alookup o c1_network.nodes = some n → n.name ≠ "Shape") →
        (∀ o ∈ network_olds c1_network, ∀ n,
          alookup o c1_network.nodes = some n → n.name ≠ "Cull") →
        ∃ ins2 nn,
          renumber_inputs ((network_olds c1_network).zip
            (List.range' (43 : Nat) (network_olds c1_network).length)) nsh.inputs
            = some ins2 ∧
          alookup osh ((network_olds c1_network).zip
            (List.range' (43 : Nat) (network_olds c1_network).length)) = some nn ∧
          alookup (43 + (network_olds c1_network).length)
            (((update_layer_network c1_network 0 7
                { nextId := 43, nextY := 7, new_nodes := [] }).getD
                  ({ nextId := 0, nextY := 0, new_nodes := [] }, 0)).1).new_nodes =
            some (shape_duplicate output_node.posX 0 7 { nsh with inputs := ins2 }) ∧
          alookup nn
            (((update_layer_network c1_network 0 7
                { nextId := 43, nextY := 7, new_nodes := [] }).getD
                  ({ nextId := 0, nextY := 0, new_nodes := [] }, 0)).1).new_nodes =
            some (finalize_node output_node.posX 0 7
              (cull_rename output_node.posX 0 7
                (43 + (network_olds c1_network).length) { nsh with inputs := ins2 })) ∧
          (finalize_node output_node.posX 0 7
            (cull_rename output_node.posX 0 7
              (43 + (network_olds c1_network).length) { nsh with inputs := ins2 })).name
            = "Cull" ∧
          (finalize_node output_node.posX 0 7
            (cull_rename output_node.posX 0 7
              (43 + (network_olds c1_network).length) { nsh with inputs := ins2 })).inputs
            = [NodeInput.node (43 + (network_olds c1_network).length) 0 false] ∧
          (finalize_node output_node.posX 0 7
            (cull_rename output_node.posX 0 7
              (43 + (network_olds c1_network).length) { nsh with inputs := ins2 })).posX -
            (shape_duplicate output_node.posX 0 7 { nsh with inputs := ins2 }).posX = 8 ∧
          (((update_layer_network c1_network 0 7
              { nextId := 43, nextY := 7, new_nodes := [] }).getD
                ({ nextId := 0, nextY := 0, new_nodes := [] }, 0)).1).nextId =
            43 + (network_olds c1_network).length + 1) ∧
      ((∃ oc ∈ network_olds c1_network, ∃ nc,
          alookup oc c1_network.nodes = some nc ∧ nc.name = "Cull") →
        (((update_layer_network c1_network 0 7
            { nextId := 43, nextY := 7, new_nodes := [] }).getD
              ({ nextId := 0, nextY := 0, new_nodes := [] }, 0)).1).nextId =
          43 + (network_olds c1_network).length ∧
        ∀ o ∈ network_olds c1_network, ∀ n0,
          alookup o c1_network.nodes = some n0 →
          n0.name = "Shape" →
          ∃ ins2 nn,
            renumber_inputs ((network_olds c1_network).zip
              (List.range' (43 : Nat) (network_olds c1_network).length)) n0.inputs
              = some ins2 ∧
            alookup o ((network_olds c1_network).zip
              (List.range' (43 : Nat) (network_olds c1_network).length)) = some nn ∧
            alookup nn
              (((update_layer_network c1_network 0 7
                  { nextId := 43, nextY := 7, new_nodes := [] }).getD
                    ({ nextId := 0, nextY := 0, new_nodes := [] }, 0)).1).new_nodes =
              some (finalize_node output_node.posX 0 7 { n0 with inputs := ins2 })) :=
  @shape_cull_insertion c1_network 0 7 { nextId := 43, nextY := 7, new_nodes := [] }
    (((update_layer_network c1_network 0 7
        { nextId := 43, nextY := 7, new_nodes := [] }).getD
          ({ nextId := 0, nextY := 0, new_nodes := [] }, 0)).1)
    (((update_layer_network c1_network 0 7
        { nextId := 43, nextY := 7, new_nodes := [] }).getD
          ({ nextId := 0, nextY := 0, new_nodes := [] }, 0)).2)
    (by rfl) (by decide)

end Graphite
